import Mathlib

/-!
Shallow embedding of the interview-scheduling engine: the slot-finding
algorithms (`src/algorithms/slotFinder.ts`), the interval utilities
(`src/utils/conflictDetection.ts`), availability checking
(`src/utils/availabilityCheck.ts`), load calculation
(`src/utils/loadCalculation.ts`) and the engine entry point
(`src/core/SchedulingEngine.ts`).

Conventions of the embedding:
* An instant is an integer counting minutes from an arbitrary epoch
  midnight; its calendar date is the Euclidean quotient `t / 1440` and its
  clock-of-day value the remainder `t % 1440`.  This mirrors the
  JavaScript code run in a UTC environment, where `getHours`/`getMinutes`
  read the clock of day and `toISOString().split('T')[0]` reads the date.
  The epoch is chosen so that day number `d` has weekday `d % 7`
  (`0` = sunday), matching `Date.getDay`.
* Work-hour strings `"HH:MM"` are represented by their parsed
  minutes-from-midnight value; date strings `"YYYY-MM-DD"` by day numbers.
* The wall clock read by `Date.now()` is passed explicitly as a `now`
  parameter, constant during one search invocation.
* A JavaScript `undefined`-able field becomes an `Option`; JS truthiness
  of an optional boolean is `Option.getD false`, and the code pattern
  `options.x !== false` is `x ≠ some false`.
* The recursive searches take an explicit `fuel : Nat` bounding recursion
  depth; the top-level entry points supply fuel exceeding any reachable
  depth, so the zero-fuel branch is unreachable from them.
-/

namespace Scheduling

/-- `MINUTES_IN_DAY` from `src/constants.ts`. -/
def MINUTES_IN_DAY : Int := 1440

/-- `DEFAULT_APPOINTMENT_START_TIME = '09:00:00.000Z'` from
`src/constants.ts`, as minutes from midnight. -/
def DEFAULT_APPOINTMENT_START_MINUTES : Int := 540

/-- A time chunk (`TimeChunk` in `src/types`): both bounds already
normalized to comparable minute values, as `normalizeTime` produces for
numeric inputs (for which it is the identity). -/
structure TimeChunk where
  startTime : Int
  endTime : Int
deriving DecidableEq, Repr

/-- `normalizeTime` applied to an ISO 8601 timestamp keeps only
`getHours() * 60 + getMinutes()`, i.e. the clock of day. -/
def normalizeClock (t : Int) : Int := t.emod 1440

/-- `isTimeOverlap` from `src/utils/conflictDetection.ts`: no overlap iff
one chunk ends before (or when) the other starts. -/
def isTimeOverlap (chunk1 chunk2 : TimeChunk) : Bool :=
  if chunk1.endTime ≤ chunk2.startTime ∨ chunk1.startTime ≥ chunk2.endTime then
    false
  else
    true

/-- `OverlapType` from `src/types`. -/
inductive OverlapType where
  | none
  | exact
  | left
  | right
  | enclosed
  | encloses
deriving DecidableEq, Repr

/-- `getOverlapType` from `src/utils/conflictDetection.ts`: the ordered
cascade of boundary comparisons, verbatim. -/
def getOverlapType (chunk1 chunk2 : TimeChunk) : OverlapType :=
  let start1 := chunk1.startTime
  let end1 := chunk1.endTime
  let start2 := chunk2.startTime
  let end2 := chunk2.endTime
  if end1 ≤ start2 ∨ start1 ≥ end2 then OverlapType.none
  else if start1 = start2 ∧ end1 = end2 then OverlapType.exact
  else if start1 ≤ start2 ∧ end1 ≥ end2 then OverlapType.encloses
  else if start1 ≥ start2 ∧ end1 ≤ end2 then OverlapType.enclosed
  else if start1 < start2 ∧ end1 > start2 ∧ end1 < end2 then OverlapType.left
  else if start1 > start2 ∧ start1 < end2 ∧ end1 > end2 then OverlapType.right
  else OverlapType.none

/-- `SchedulingOptions` from `src/types`: every field optional, `none`
meaning the key is absent (JS `undefined`). -/
structure SchedulingOptions where
  respectWorkHours : Option Bool := Option.none
  respectHolidays : Option Bool := Option.none
  respectDayOffs : Option Bool := Option.none
  respectDailyLimits : Option Bool := Option.none
  respectWeeklyLimits : Option Bool := Option.none
  checkCalendarConflicts : Option Bool := Option.none
  excludeRecruitingBlocks : Option Bool := Option.none
  balanceLoad : Option Bool := Option.none
  maxResults : Option Int := Option.none
  includeTrainingInterviewers : Option Bool := Option.none
deriving DecidableEq, Repr

/-- JS truthiness of an optional boolean (`undefined` and `false` are
falsy). -/
def truthyOpt (o : Option Bool) : Bool := o.getD false

/-- The JS guard `options.maxResults && n >= options.maxResults`
(`0` and `undefined` are falsy). -/
def maxReached (o : SchedulingOptions) (n : Nat) : Bool :=
  match o.maxResults with
  | Option.none => false
  | Option.some m => if m = 0 then false else decide ((n : Int) ≥ m)

/-- One side (daily or weekly) of `LoadInfo` from `src/types`. -/
structure LoadSide where
  current : Rat
  max : Rat
  density : Rat
deriving DecidableEq, Repr

/-- `LoadInfo` from `src/types`. -/
structure LoadInfo where
  daily : LoadSide
  weekly : LoadSide
deriving DecidableEq, Repr

/-- The four buckets of `getLoadDensityCategory`. -/
inductive LoadCategory where
  | low
  | medium
  | high
  | over_limit
deriving DecidableEq, Repr

/-- `getLoadDensityCategory` from `src/utils/loadCalculation.ts`. -/
def getLoadDensityCategory (density : Rat) : LoadCategory :=
  if density > 1 then LoadCategory.over_limit
  else if density ≥ (9 : Rat) / 10 then LoadCategory.high
  else if density ≥ (7 : Rat) / 10 then LoadCategory.medium
  else LoadCategory.low

/-- `wouldExceedLoadLimits` from `src/utils/loadCalculation.ts`. -/
def wouldExceedLoadLimits (loadInfo : LoadInfo)
    (options : SchedulingOptions) : Bool :=
  if truthyOpt options.respectDailyLimits ∧ loadInfo.daily.density > 1 then
    true
  else if truthyOpt options.respectWeeklyLimits ∧ loadInfo.weekly.density > 1 then
    true
  else
    false

/-- Rational addition, kernel-reducible (the library's `Rat.add` is
`@[irreducible]`, which blocks `decide`-style evaluation); agrees with
`+` on `ℚ`. -/
def ratAdd (a b : Rat) : Rat := mkRat (a.num * b.den + b.num * a.den) (a.den * b.den)

/-- Rational subtraction, kernel-reducible; agrees with `-` on `ℚ`. -/
def ratSub (a b : Rat) : Rat := mkRat (a.num * b.den - b.num * a.den) (a.den * b.den)

/-- Rational division, kernel-reducible; agrees with `/` on `ℚ`
(division by zero yields zero). -/
def ratDiv (a b : Rat) : Rat :=
  mkRat (a.num * b.den * (if b.num < 0 then -1 else 1)) (a.den * b.num.natAbs)

/-- Calendar date (day number) of an instant, as
`toISOString().split('T')[0]` reads it. -/
def dayNumber (t : Int) : Int := t.ediv 1440

/-- Clock-of-day of an instant, as `getHours() * 60 + getMinutes()`
reads it. -/
def minuteOfDay (t : Int) : Int := t.emod 1440

/-- Weekday of an instant (`Date.getDay`), with the epoch aligned so that
day `0` is a sunday. -/
def dayOfWeek (t : Int) : Int := (dayNumber t).emod 7

/-- Stable insertion step: place `x` after every element that compares
`≤ 0` against it. -/
def sortInsert (cmp : α → α → Rat) (x : α) : List α → List α
  | [] => [x]
  | y :: ys => if cmp y x ≤ 0 then y :: sortInsert cmp x ys else x :: y :: ys

/-- Stable sort with a JS-style numeric comparator: the unique stable
order, modelling `Array.prototype.sort` (stable since ES2019) for a
consistent comparator. -/
def stableSortBy (cmp : α → α → Rat) (l : List α) : List α :=
  l.foldl (fun acc x => sortInsert cmp x acc) []

/-- Loop of `mergeTimeChunks`: walk the sorted tail, merging into
`current`, flushing `current` when a gap appears. -/
def mergeChunksLoop : List TimeChunk → TimeChunk → List TimeChunk → List TimeChunk
  | [], current, merged => merged ++ [current]
  | next :: rest, current, merged =>
    if next.startTime ≤ current.endTime then
      mergeChunksLoop rest ⟨current.startTime, max current.endTime next.endTime⟩ merged
    else
      mergeChunksLoop rest next (merged ++ [current])

/-- `mergeTimeChunks` from `src/utils/conflictDetection.ts` on already
normalized chunks: sort by start, then linearly merge overlapping or
adjacent chunks. -/
def mergeTimeChunks (chunks : List TimeChunk) : List TimeChunk :=
  match stableSortBy (fun a b => ((a.startTime - b.startTime : Int) : Rat)) chunks with
  | [] => []
  | c :: rest => mergeChunksLoop rest c []

/-- `getTotalDuration` from `src/utils/conflictDetection.ts`: total busy
minutes after merging overlaps. -/
def getTotalDuration (chunks : List TimeChunk) : Int :=
  (mergeTimeChunks chunks).foldl (fun total c => total + (c.endTime - c.startTime)) 0

/-- A parsed `"HH:MM"`–`"HH:MM"` work-hours range (`TimeRange` in
`src/types`), in minutes from midnight. -/
structure TimeRangeHM where
  startTime : Int
  endTime : Int
deriving DecidableEq, Repr

/-- `WorkHours` from `src/types`: an optional range per weekday. -/
structure WorkHours where
  sunday : Option TimeRangeHM := Option.none
  monday : Option TimeRangeHM := Option.none
  tuesday : Option TimeRangeHM := Option.none
  wednesday : Option TimeRangeHM := Option.none
  thursday : Option TimeRangeHM := Option.none
  friday : Option TimeRangeHM := Option.none
  saturday : Option TimeRangeHM := Option.none
deriving DecidableEq, Repr

/-- Index `interviewer.workHours[dayOfWeek]` with the weekday table of
`getDayOfWeek` (`0` = sunday … `6` = saturday). -/
def WorkHours.forDay (w : WorkHours) (dow : Int) : Option TimeRangeHM :=
  if dow = 0 then w.sunday
  else if dow = 1 then w.monday
  else if dow = 2 then w.tuesday
  else if dow = 3 then w.wednesday
  else if dow = 4 then w.thursday
  else if dow = 5 then w.friday
  else w.saturday

/-- `Holiday` from `src/types` (dates as day numbers). -/
structure Holiday where
  date : Int
  name : String
deriving DecidableEq, Repr

/-- Limit type of a `LoadLimit`. -/
inductive LimitType where
  | hours
  | count
deriving DecidableEq, Repr

/-- `LoadLimit` from `src/types`. -/
structure LoadLimit where
  type : LimitType
  max : Rat
deriving DecidableEq, Repr

/-- `InterviewerLimits` from `src/types`. -/
structure InterviewerLimits where
  daily : LoadLimit
  weekly : LoadLimit
deriving DecidableEq, Repr

/-- A blocked time range (`DateTimeRange` in `src/types`); the TS field
`end` is spelled `stop` here because `end` is a Lean keyword. -/
structure DateTimeRange where
  start : Int
  stop : Int
deriving DecidableEq, Repr

/-- `Interviewer` from `src/types`.  A missing optional list is `none`
(JS `undefined`); `isTraining` is stored pre-coerced to its JS truthiness. -/
structure Interviewer where
  id : String
  name : String
  email : String
  workHours : WorkHours
  limits : InterviewerLimits
  holidays : Option (List Holiday) := Option.none
  dayOffs : Option (List Int) := Option.none
  blockedTimes : Option (List DateTimeRange) := Option.none
  isTraining : Bool := false
deriving DecidableEq, Repr

/-- `CalendarEvent` from `src/types` (`end` spelled `stop`). -/
structure CalendarEvent where
  id : String
  title : String
  start : Int
  stop : Int
deriving DecidableEq, Repr

/-- `InterviewSession` from `src/types`. -/
structure InterviewSession where
  id : String
  name : String
  duration : Int
  breakAfter : Int
  requiredInterviewers : Nat
  order : Int
  meetingType : Option String := Option.none
  location : Option String := Option.none
  interviewerPool : Option (List String) := Option.none
deriving DecidableEq, Repr

/-- `InterviewerAssignment` from `src/types`. -/
structure InterviewerAssignment where
  interviewerId : String
  name : String
  email : String
  isTraining : Bool
  status : String
deriving DecidableEq, Repr

/-- `InterviewSlot` from `src/types`. -/
structure InterviewSlot where
  id : String
  sessionId : String
  sessionName : String
  startTime : Int
  endTime : Int
  interviewers : List InterviewerAssignment
  meetingType : String
  location : Option String
deriving DecidableEq, Repr

/-- `SessionCombination` from `src/types`; the `loadDensity` record is an
association list in JS object-key insertion order. -/
structure SessionCombination where
  id : String
  date : Int
  slots : List InterviewSlot
  startTime : Int
  endTime : Int
  totalDuration : Int
  loadDensity : List (String × Rat)
deriving DecidableEq, Repr

/-- `RoundPlan` from `src/types`. -/
structure RoundPlan where
  roundNumber : Nat
  date : Int
  combination : SessionCombination
  sessions : List InterviewSession
deriving DecidableEq, Repr

/-- `MultiDayPlan` from `src/types`. -/
structure MultiDayPlan where
  id : String
  rounds : List RoundPlan
  totalRounds : Nat
  allInterviewers : List String
deriving DecidableEq, Repr

/-- `SlotConflict` from `src/types`; the conflict kind is kept as its TS
string literal. -/
structure SlotConflict where
  type : String
  interviewerId : Option String
  message : String
  event : Option CalendarEvent := Option.none
deriving DecidableEq, Repr

/-- `AvailabilityResult` from `src/utils/availabilityCheck.ts`. -/
structure AvailabilityResult where
  available : Bool
  conflicts : List SlotConflict
deriving DecidableEq, Repr

/-- `checkWorkHours` from `src/utils/availabilityCheck.ts`. -/
def checkWorkHours (interviewer : Interviewer) (start stop : Int) :
    Option SlotConflict :=
  match interviewer.workHours.forDay (dayOfWeek start) with
  | Option.none =>
    Option.some
      ⟨"work_hours", Option.some interviewer.id,
        interviewer.name ++ " does not work on that day", Option.none⟩
  | Option.some workHours =>
    if minuteOfDay start < workHours.startTime ∨
        minuteOfDay stop > workHours.endTime then
      Option.some
        ⟨"work_hours", Option.some interviewer.id, "Outside work hours",
          Option.none⟩
    else
      Option.none

/-- `checkHolidays` from `src/utils/availabilityCheck.ts`. -/
def checkHolidays (interviewer : Interviewer) (date : Int) :
    Option SlotConflict :=
  match interviewer.holidays with
  | Option.none => Option.none
  | Option.some hs =>
    match hs.find? (fun h => h.date = date) with
    | Option.some h =>
      Option.some
        ⟨"holiday", Option.some interviewer.id, "Holiday: " ++ h.name,
          Option.none⟩
    | Option.none => Option.none

/-- `checkDayOffs` from `src/utils/availabilityCheck.ts`. -/
def checkDayOffs (interviewer : Interviewer) (date : Int) :
    Option SlotConflict :=
  match interviewer.dayOffs with
  | Option.none => Option.none
  | Option.some ds =>
    if ds.contains date then
      Option.some
        ⟨"day_off", Option.some interviewer.id,
          "Day off for " ++ interviewer.name, Option.none⟩
    else
      Option.none

/-- `checkBlockedTimes` from `src/utils/availabilityCheck.ts`: report the
first blocked range overlapping the window (absolute-time comparison). -/
def checkBlockedTimes (interviewer : Interviewer) (startTime endTime : Int) :
    Option SlotConflict :=
  match interviewer.blockedTimes with
  | Option.none => Option.none
  | Option.some bs =>
    match bs.find? (fun b => !(endTime ≤ b.start ∨ startTime ≥ b.stop : Bool)) with
    | Option.some _ =>
      Option.some
        ⟨"recruiting_block", Option.some interviewer.id,
          "Overlaps with blocked time", Option.none⟩
    | Option.none => Option.none

/-- `isInterviewerAvailable` from `src/utils/availabilityCheck.ts`: the
work-hours, holiday and day-off checks each run unless their flag is
explicitly `false` (`options.x !== false`); the blocked-times check always
runs. -/
def isInterviewerAvailable (interviewer : Interviewer)
    (startTime endTime : Int) (options : SchedulingOptions) :
    AvailabilityResult :=
  let date := dayNumber startTime
  let c1 :=
    if options.respectWorkHours ≠ Option.some false then
      (checkWorkHours interviewer startTime endTime).toList
    else []
  let c2 :=
    if options.respectHolidays ≠ Option.some false then
      (checkHolidays interviewer date).toList
    else []
  let c3 :=
    if options.respectDayOffs ≠ Option.some false then
      (checkDayOffs interviewer date).toList
    else []
  let c4 := (checkBlockedTimes interviewer startTime endTime).toList
  let conflicts := c1 ++ c2 ++ c3 ++ c4
  ⟨conflicts.isEmpty, conflicts⟩

/-- `calculateSlotDuration` from `src/utils/loadCalculation.ts`. -/
def calculateSlotDuration (slot : InterviewSlot) : Int :=
  slot.endTime - slot.startTime

/-- `calculateDailyLoad` from `src/utils/loadCalculation.ts`; `date` is
the instant of the proposed slot's start.  The chunks handed to
`getTotalDuration` are built from ISO timestamps in TS, which
`normalizeTime` truncates to clock-of-day. -/
def calculateDailyLoad (interviewer : Interviewer) (date : Int)
    (additionalDuration : Int) (existingEvents : List CalendarEvent) :
    LoadSide :=
  let dateStr := dayNumber date
  let dayEvents := existingEvents.filter (fun e => dayNumber e.start = dateStr)
  let dailyLimit := interviewer.limits.daily
  let current : Rat :=
    match dailyLimit.type with
    | LimitType.hours =>
      let totalMinutes :=
        getTotalDuration
          (dayEvents.map (fun e => ⟨normalizeClock e.start, normalizeClock e.stop⟩))
      ratDiv ((totalMinutes + additionalDuration : Int) : Rat) 60
    | LimitType.count => ((dayEvents.length : Int) + 1 : Int)
  ⟨current, dailyLimit.max, ratDiv current dailyLimit.max⟩

/-- `calculateWeeklyLoad` from `src/utils/loadCalculation.ts`: the week is
sunday-aligned around the slot's date. -/
def calculateWeeklyLoad (interviewer : Interviewer) (date : Int)
    (additionalDuration : Int) (existingEvents : List CalendarEvent) :
    LoadSide :=
  let day := dayNumber date
  let weekStart := (day - day.emod 7) * 1440
  let weekEnd := weekStart + 7 * 1440
  let weekEvents :=
    existingEvents.filter (fun e => weekStart ≤ e.start ∧ e.start < weekEnd)
  let weeklyLimit := interviewer.limits.weekly
  let current : Rat :=
    match weeklyLimit.type with
    | LimitType.hours =>
      let totalMinutes :=
        getTotalDuration
          (weekEvents.map (fun e => ⟨normalizeClock e.start, normalizeClock e.stop⟩))
      ratDiv ((totalMinutes + additionalDuration : Int) : Rat) 60
    | LimitType.count => ((weekEvents.length : Int) + 1 : Int)
  ⟨current, weeklyLimit.max, ratDiv current weeklyLimit.max⟩

/-- `calculateInterviewerLoad` from `src/utils/loadCalculation.ts`. -/
def calculateInterviewerLoad (interviewer : Interviewer)
    (proposedSlot : InterviewSlot) (existingEvents : List CalendarEvent) :
    LoadInfo :=
  let slotDate := proposedSlot.startTime
  let slotDuration := calculateSlotDuration proposedSlot
  ⟨calculateDailyLoad interviewer slotDate slotDuration existingEvents,
    calculateWeeklyLoad interviewer slotDate slotDuration existingEvents⟩

/-- `generateCombinations` from `src/algorithms/slotFinder.ts`: classic
choose/skip recursion, `k = 0` first, then empty pool, then the
`k > arr.length` cut-off. -/
def generateCombinations : List α → Nat → List (List α)
  | _, 0 => [[]]
  | [], _ + 1 => []
  | first :: rest, k + 1 =>
    if k + 1 > rest.length + 1 then []
    else
      ((generateCombinations rest k).map (fun combo => first :: combo)) ++
        generateCombinations rest (k + 1)

/-- `generateCombinationsWithTraining` from
`src/algorithms/slotFinder.ts`: for each trainee count `1..#trainees`,
the cross product of regular and trainee combinations, appended in loop
order. -/
def generateCombinationsWithTraining (interviewers : List Interviewer)
    (required : Nat) : List (List Interviewer) :=
  let regular := interviewers.filter (fun i => !i.isTraining)
  let training := interviewers.filter (fun i => i.isTraining)
  if training.length = 0 then []
  else
    (List.range training.length).foldl
      (fun combos idx =>
        let numTraining := idx + 1
        if required < numTraining ∨ required - numTraining > regular.length then
          combos
        else
          let regularCombos := generateCombinations regular (required - numTraining)
          let trainingCombos := generateCombinations training numTraining
          combos ++
            regularCombos.flatMap (fun regCombo =>
              trainingCombos.map (fun trainCombo => regCombo ++ trainCombo)))
      []

/-- `generateInterviewerCombinations` from `src/algorithms/slotFinder.ts`
as an association list keyed by session id (a JS `Map` in insertion
order). -/
def generateInterviewerCombinations (sessions : List InterviewSession)
    (interviewers : List Interviewer) (options : SchedulingOptions) :
    List (String × List (List Interviewer)) :=
  sessions.map (fun session =>
    let pool0 :=
      match session.interviewerPool with
      | Option.none => interviewers
      | Option.some ids => interviewers.filter (fun i => ids.contains i.id)
    let pool :=
      if truthyOpt options.includeTrainingInterviewers then pool0
      else pool0.filter (fun i => !i.isTraining)
    let sessionCombos := generateCombinations pool session.requiredInterviewers
    let combos :=
      if truthyOpt options.includeTrainingInterviewers then
        sessionCombos ++
          generateCombinationsWithTraining pool session.requiredInterviewers
      else sessionCombos
    (session.id, combos))

/-- `calendarEvents.get(interviewer.id) || []` on the events map (a JS
`Map` as an association list). -/
def lookupEvents (calendarEvents : List (String × List CalendarEvent))
    (id : String) : List CalendarEvent :=
  (calendarEvents.lookup id).getD []

/-- Loop body of `checkSlotConflicts`
(`src/algorithms/slotFinder.ts`): per interviewer, availability
conflicts, then calendar-event overlaps when
`options.checkCalendarConflicts` is truthy, then daily/weekly limit
conflicts when the respective flag is truthy.  The slot/event overlap
compares `normalizeTime` of ISO timestamps, i.e. clock-of-day values. -/
def checkSlotConflictsStep (slot : InterviewSlot)
    (calendarEvents : List (String × List CalendarEvent))
    (options : SchedulingOptions) (conflicts : List SlotConflict)
    (interviewer : Interviewer) : List SlotConflict :=
  let isAvailable :=
    isInterviewerAvailable interviewer slot.startTime slot.endTime options
  let conflicts :=
    if !isAvailable.available then conflicts ++ isAvailable.conflicts
    else conflicts
  let conflicts :=
    if truthyOpt options.checkCalendarConflicts then
      conflicts ++
        (lookupEvents calendarEvents interviewer.id).filterMap
          (fun event =>
            if isTimeOverlap
                ⟨normalizeClock slot.startTime, normalizeClock slot.endTime⟩
                ⟨normalizeClock event.start, normalizeClock event.stop⟩ then
              Option.some
                ⟨"calendar_event", Option.some interviewer.id,
                  "Calendar conflict with " ++ event.title,
                  Option.some event⟩
            else Option.none)
    else conflicts
  if truthyOpt options.respectDailyLimits ∨
      truthyOpt options.respectWeeklyLimits then
    let loadInfo :=
      calculateInterviewerLoad interviewer slot
        (lookupEvents calendarEvents interviewer.id)
    let conflicts :=
      if truthyOpt options.respectDailyLimits ∧ loadInfo.daily.density > 1 then
        conflicts ++
          [⟨"daily_limit", Option.some interviewer.id,
            "Daily limit exceeded", Option.none⟩]
      else conflicts
    if truthyOpt options.respectWeeklyLimits ∧ loadInfo.weekly.density > 1 then
      conflicts ++
        [⟨"weekly_limit", Option.some interviewer.id,
          "Weekly limit exceeded", Option.none⟩]
    else conflicts
  else conflicts

/-- `checkSlotConflicts` from `src/algorithms/slotFinder.ts`: fold the
per-interviewer step over the combination, starting from no conflicts. -/
def checkSlotConflicts (slot : InterviewSlot)
    (interviewers : List Interviewer)
    (calendarEvents : List (String × List CalendarEvent))
    (options : SchedulingOptions) : List SlotConflict :=
  interviewers.foldl (checkSlotConflictsStep slot calendarEvents options) []

/-- `createAndCheckSlot` from `src/algorithms/slotFinder.ts`: build the
candidate slot (its id embeds `Date.now()`, passed here as `now`) and
accept it iff `checkSlotConflicts` reports none. -/
def createAndCheckSlot (session : InterviewSession)
    (interviewerCombo : List Interviewer) (startTime : Int)
    (calendarEvents : List (String × List CalendarEvent))
    (options : SchedulingOptions) (now : Int) : Option InterviewSlot :=
  let slot : InterviewSlot :=
    { id := "slot-" ++ session.id ++ "-" ++ toString now
      sessionId := session.id
      sessionName := session.name
      startTime := startTime
      endTime := startTime + session.duration
      interviewers :=
        interviewerCombo.map (fun i => ⟨i.id, i.name, i.email, i.isTraining, "pending"⟩)
      meetingType := session.meetingType.getD "google_meet"
      location := session.location }
  let conflicts := checkSlotConflicts slot interviewerCombo calendarEvents options
  if conflicts.length = 0 then Option.some slot else Option.none

/-- `calculateSessionStartTime` from `src/algorithms/slotFinder.ts`: the
day-default start for the first session, otherwise the last placed slot's
end plus the *current* session's `breakAfter`
(`addMinutesToTime(lastSlot.endTime, session.breakAfter)`). -/
def calculateSessionStartTime (previousSlots : List InterviewSlot)
    (session : InterviewSession) (date : Int) : Int :=
  match previousSlots.getLast? with
  | Option.none => date * 1440 + DEFAULT_APPOINTMENT_START_MINUTES
  | Option.some lastSlot => lastSlot.endTime + session.breakAfter

/-- `calculateTotalDuration` from `src/algorithms/slotFinder.ts`: span
from the first slot's start to the last slot's end. -/
def calculateTotalDuration (slots : List InterviewSlot) : Int :=
  match slots.head?, slots.getLast? with
  | Option.some first, Option.some last => last.endTime - first.startTime
  | _, _ => 0

/-- Update a `slotCounts` association list in JS object-key insertion
order. -/
def bumpCount : List (String × Nat) → String → List (String × Nat)
  | [], key => [(key, 1)]
  | (k, n) :: rest, key =>
    if k = key then (k, n + 1) :: rest else (k, n) :: bumpCount rest key

/-- `calculateLoadDensity` from `src/algorithms/slotFinder.ts`: the
coarse per-interviewer proxy `assigned-slot-count / TYPICAL_MAX_SLOTS`
with `TYPICAL_MAX_SLOTS = 4`.  The `allInterviewers` parameter is unused,
as in the source. -/
def calculateLoadDensity (slots : List InterviewSlot)
    (_allInterviewers : List Interviewer) : List (String × Rat) :=
  let slotCounts :=
    slots.foldl
      (fun counts slot =>
        slot.interviewers.foldl
          (fun c assignment => bumpCount c assignment.interviewerId) counts)
      []
  slotCounts.map (fun p => (p.1, ratDiv ((p.2 : Int) : Rat) 4))

/-- `getAverageLoadDensity` from `src/algorithms/slotFinder.ts`. -/
def getAverageLoadDensity (loadDensity : List (String × Rat)) : Rat :=
  if loadDensity.isEmpty then 0
  else
    ratDiv (loadDensity.foldl (fun sum p => ratAdd sum p.2) 0)
      ((loadDensity.length : Int) : Rat)

/-- `generateSlotCombinationId` from `src/algorithms/slotFinder.ts` (the
trailing component is `Date.now()`). -/
def generateSlotCombinationId (slots : List InterviewSlot) (now : Int) : String :=
  "combo-" ++ String.intercalate "-" (slots.map (fun s => s.sessionId)) ++
    "-" ++ toString now

/-- The `SessionCombination` built at the base case of
`exploreSlotCombinations`.  `currentSlots[0]`/`currentSlots[last]` are
totalized with a `0` default, unreachable for a non-empty session list. -/
def mkSessionCombination (allInterviewers : List Interviewer) (date : Int)
    (now : Int) (currentSlots : List InterviewSlot) : SessionCombination :=
  { id := generateSlotCombinationId currentSlots now
    date := date
    slots := currentSlots
    startTime := ((currentSlots.head?).map (fun s => s.startTime)).getD 0
    endTime := ((currentSlots.getLast?).map (fun s => s.endTime)).getD 0
    totalDuration := calculateTotalDuration currentSlots
    loadDensity := calculateLoadDensity currentSlots allInterviewers }

/-- The `for (const interviewerCombo of combinations)` loop of
`exploreSlotCombinations`: `step` returns `none` when the candidate slot
was rejected (continue without the max-results check) and the extended
result list after recursing otherwise. -/
def comboLoopE (options : SchedulingOptions)
    (step : List Interviewer → List SessionCombination →
      Option (List SessionCombination)) :
    List (List Interviewer) → List SessionCombination → List SessionCombination
  | [], results => results
  | combo :: rest, results =>
    match step combo results with
    | Option.none => comboLoopE options step rest results
    | Option.some results1 =>
      if maxReached options results1.length then results1
      else comboLoopE options step rest results1

/-- `exploreSlotCombinations` from `src/algorithms/slotFinder.ts`
(backtracking over the remaining sessions, accumulating results), with an
explicit recursion-depth `fuel`; `findSlotsForDay` supplies
`sessions.length + 1`, which exceeds any reachable depth. -/
def exploreSlotCombinations :
    Nat → List (String × List (List Interviewer)) → List Interviewer →
    Int → List (String × List CalendarEvent) → SchedulingOptions → Int →
    List InterviewSession → List InterviewSlot → List SessionCombination →
    List SessionCombination
  | 0, _, _, _, _, _, _, _, _, results => results
  | _ + 1, _, allInterviewers, date, _, _, now, [], currentSlots, results =>
    results ++ [mkSessionCombination allInterviewers date now currentSlots]
  | fuel + 1, sessionCombinations, allInterviewers, date, calendarEvents,
      options, now, session :: rest, currentSlots, results =>
    let startTime := calculateSessionStartTime currentSlots session date
    let combinations := (sessionCombinations.lookup session.id).getD []
    comboLoopE options
      (fun interviewerCombo res =>
        match createAndCheckSlot session interviewerCombo startTime
            calendarEvents options now with
        | Option.none => Option.none
        | Option.some slot =>
          Option.some
            (exploreSlotCombinations fuel sessionCombinations allInterviewers
              date calendarEvents options now rest (currentSlots ++ [slot]) res))
      combinations results

/-- Comparator of the final sort of `findSlotsForDay`: start time
(ISO-string comparison coincides with instant order), then average load
density. -/
def sessionCombinationCmp (a b : SessionCombination) : Rat :=
  if a.startTime ≠ b.startTime then ((a.startTime - b.startTime : Int) : Rat)
  else ratSub (getAverageLoadDensity a.loadDensity) (getAverageLoadDensity b.loadDensity)

/-- `findSlotsForDay` from `src/algorithms/slotFinder.ts`: sort sessions
by `order`, pre-generate interviewer combinations, explore, and sort the
results by start time then average load density. -/
def findSlotsForDay (sessions : List InterviewSession)
    (interviewers : List Interviewer) (date : Int)
    (calendarEvents : List (String × List CalendarEvent))
    (options : SchedulingOptions) (now : Int) : List SessionCombination :=
  let sortedSessions :=
    stableSortBy (fun a b => ((a.order - b.order : Int) : Rat)) sessions
  let sessionCombinations :=
    generateInterviewerCombinations sortedSessions interviewers options
  let slotCombinations :=
    exploreSlotCombinations (sortedSessions.length + 1) sessionCombinations
      interviewers date calendarEvents options now sortedSessions [] []
  stableSortBy sessionCombinationCmp slotCombinations

/-- `groupSessionsIntoRounds` from `src/algorithms/slotFinder.ts`. -/
def groupSessionsIntoRounds (sessions : List InterviewSession) :
    List (List InterviewSession) :=
  let sorted := stableSortBy (fun a b => ((a.order - b.order : Int) : Rat)) sessions
  let state :=
    sorted.foldl
      (fun (p : List (List InterviewSession) × List InterviewSession) session =>
        let currentRound := p.2 ++ [session]
        if session.breakAfter ≥ MINUTES_IN_DAY then (p.1 ++ [currentRound], [])
        else (p.1, currentRound))
      ([], [])
  if state.2.isEmpty then state.1 else state.1 ++ [state.2]

/-- `hasInterviewerConflictWithPreviousRounds` from
`src/algorithms/slotFinder.ts`: pure id-set intersection. -/
def hasInterviewerConflictWithPreviousRounds (slotCombo : SessionCombination)
    (previousRounds : List RoundPlan) : Bool :=
  let currentInterviewers :=
    slotCombo.slots.flatMap (fun slot => slot.interviewers.map (fun a => a.interviewerId))
  previousRounds.any (fun round =>
    (round.combination.slots.flatMap
        (fun slot => slot.interviewers.map (fun a => a.interviewerId))).any
      (fun intId => currentInterviewers.contains intId))

/-- `extractAllInterviewers` from `src/algorithms/slotFinder.ts`: the
deduplicated ids in first-seen order (a JS `Set` iterates in insertion
order). -/
def extractAllInterviewers (rounds : List RoundPlan) : List String :=
  rounds.foldl
    (fun acc round =>
      round.combination.slots.foldl
        (fun acc slot =>
          slot.interviewers.foldl
            (fun acc assignment =>
              if acc.contains assignment.interviewerId then acc
              else acc ++ [assignment.interviewerId])
            acc)
        acc)
    acc0
where acc0 : List String := []

/-- `generatePlanId` from `src/algorithms/slotFinder.ts` (dates then
`Date.now()`). -/
def generatePlanId (rounds : List RoundPlan) (now : Int) : String :=
  "plan-" ++ String.intercalate "-" (rounds.map (fun r => toString r.date)) ++
    "-" ++ toString now

/-- `Math.ceil(a / b)` for integers, `b > 0`. -/
def ceilDiv (a b : Int) : Int := -((-a).ediv b)

/-- The inclusive daily iteration `while (currentDate <= end)` of
`findRoundSlots`, as the explicit list of visited dates. -/
def datesFromTo (s e : Int) : List Int :=
  (List.range (e + 1 - s).toNat).map (fun i => s + Int.ofNat i)

/-- The `for (const slotCombo of daySlots)` loop of `findSlotsForRound`:
skip combinations re-using an interviewer of an earlier round, otherwise
recurse into the next round (`recRound`) and stop early at the result
cap. -/
def planComboLoop (options : SchedulingOptions)
    (recRound : List RoundPlan → List MultiDayPlan → List MultiDayPlan)
    (previousRounds : List RoundPlan) (currentDate : Int)
    (currentRoundSessions : List InterviewSession) :
    List SessionCombination → List MultiDayPlan → List MultiDayPlan
  | [], results => results
  | slotCombo :: rest, results =>
    if hasInterviewerConflictWithPreviousRounds slotCombo previousRounds then
      planComboLoop options recRound previousRounds currentDate
        currentRoundSessions rest results
    else
      let roundPlan : RoundPlan :=
        ⟨previousRounds.length, currentDate, slotCombo, currentRoundSessions⟩
      let results1 := recRound (previousRounds ++ [roundPlan]) results
      if maxReached options results1.length then results1
      else
        planComboLoop options recRound previousRounds currentDate
          currentRoundSessions rest results1

/-- The daily loop of `findRoundSlots`: per candidate date, run the
single-day search for the round's sessions and feed every accepted
combination to `planComboLoop`; stop early at the result cap. -/
def dateLoop (interviewers : List Interviewer)
    (calendarEvents : List (String × List CalendarEvent))
    (options : SchedulingOptions) (now : Int)
    (recRound : List RoundPlan → List MultiDayPlan → List MultiDayPlan)
    (currentRoundSessions : List InterviewSession)
    (previousRounds : List RoundPlan) :
    List Int → List MultiDayPlan → List MultiDayPlan
  | [], results => results
  | d :: ds, results =>
    let daySlots :=
      findSlotsForDay currentRoundSessions interviewers d calendarEvents
        options now
    let results1 :=
      planComboLoop options recRound previousRounds d currentRoundSessions
        daySlots results
    if maxReached options results1.length then results1
    else
      dateLoop interviewers calendarEvents options now recRound
        currentRoundSessions previousRounds ds results1

/-- `findRoundSlots` from `src/algorithms/slotFinder.ts`, with the
remaining rounds as a list (`rounds[currentRoundIndex..]`;
`currentRoundIndex = previousRounds.length` throughout) and an explicit
`fuel` bounding the round recursion depth.  At the base case the source
stores `rounds.length`, which equals `previousRounds.length` there.  The
gap from the previous round is
`Math.ceil(currentRoundSessions[0].breakAfter / MINUTES_IN_DAY)` — note
the source reads the boundary break from the *current* round's first
session (`const lastSession = currentRoundSessions[0]`), totalized with a
`0` default for an empty round, which `groupSessionsIntoRounds` never
produces. -/
def findRoundSlots :
    Nat → List Interviewer → List (String × List CalendarEvent) →
    SchedulingOptions → Int → Int → Int → List (List InterviewSession) →
    List RoundPlan → List MultiDayPlan → List MultiDayPlan
  | 0, _, _, _, _, _, _, _, _, results => results
  | _ + 1, _, _, _, now, _, _, [], previousRounds, results =>
    results ++
      [{ id := generatePlanId previousRounds now
         rounds := previousRounds
         totalRounds := previousRounds.length
         allInterviewers := extractAllInterviewers previousRounds }]
  | fuel + 1, interviewers, calendarEvents, options, now, startDate, endDate,
      currentRoundSessions :: restRounds, previousRounds, results =>
    let searchStartDate :=
      match previousRounds.getLast? with
      | Option.none => startDate
      | Option.some lastRound =>
        let gapDays :=
          ceilDiv
            (((currentRoundSessions.head?).map (fun s => s.breakAfter)).getD 0)
            MINUTES_IN_DAY
        lastRound.date + gapDays
    dateLoop interviewers calendarEvents options now
      (findRoundSlots fuel interviewers calendarEvents options now startDate
        endDate restRounds)
      currentRoundSessions previousRounds
      (datesFromTo searchStartDate endDate) results

/-- `findMultiDaySlots` from `src/algorithms/slotFinder.ts`: group the
sessions into rounds and run the recursive round scheduler over the date
range; the supplied fuel `rounds.length + 1` covers every recursion
level. -/
def findMultiDaySlots (sessions : List InterviewSession)
    (interviewers : List Interviewer) (startDate endDate : Int)
    (calendarEvents : List (String × List CalendarEvent))
    (options : SchedulingOptions) (now : Int) : List MultiDayPlan :=
  let rounds := groupSessionsIntoRounds sessions
  findRoundSlots (rounds.length + 1) interviewers calendarEvents options now
    startDate endDate rounds [] []

/-- Errors of `src/errors.ts` that `SchedulingEngine.findSlots` can
surface. -/
inductive EngineError where
  | validation : String → EngineError
  | scheduling : String → EngineError
deriving DecidableEq, Repr

/-- The built-in `defaultOptions` of the `SchedulingEngine` constructor
(`src/core/SchedulingEngine.ts`). -/
def engineDefaultOptions : SchedulingOptions :=
  { respectWorkHours := Option.some true
    respectHolidays := Option.some true
    respectDayOffs := Option.some true
    respectDailyLimits := Option.some true
    respectWeeklyLimits := Option.some true
    checkCalendarConflicts := Option.some true
    excludeRecruitingBlocks := Option.some true
    balanceLoad := Option.some true
    maxResults := Option.some 100
    includeTrainingInterviewers := Option.some false }

/-- Per-field view of the object spread `{...base, ...overrides}`: an
absent key (`none`) falls back to the base. -/
def overrideField (base override : Option α) : Option α :=
  match override with
  | Option.some v => Option.some v
  | Option.none => base

/-- `{...this.config.defaultOptions, ...options.options}` from
`SchedulingEngine.findSlots`. -/
def mergeOptions (base overrides : SchedulingOptions) : SchedulingOptions :=
  { respectWorkHours := overrideField base.respectWorkHours overrides.respectWorkHours
    respectHolidays := overrideField base.respectHolidays overrides.respectHolidays
    respectDayOffs := overrideField base.respectDayOffs overrides.respectDayOffs
    respectDailyLimits := overrideField base.respectDailyLimits overrides.respectDailyLimits
    respectWeeklyLimits := overrideField base.respectWeeklyLimits overrides.respectWeeklyLimits
    checkCalendarConflicts := overrideField base.checkCalendarConflicts overrides.checkCalendarConflicts
    excludeRecruitingBlocks := overrideField base.excludeRecruitingBlocks overrides.excludeRecruitingBlocks
    balanceLoad := overrideField base.balanceLoad overrides.balanceLoad
    maxResults := overrideField base.maxResults overrides.maxResults
    includeTrainingInterviewers := overrideField base.includeTrainingInterviewers overrides.includeTrainingInterviewers }

/-- The `SchedulingEngine` constructor's config defaulting
(`{defaultOptions: ⟨built-ins⟩, ...config}`): a caller-supplied
`defaultOptions` replaces the built-ins wholesale. -/
def engineConfigDefaults (userDefaultOptions : Option SchedulingOptions) :
    SchedulingOptions :=
  userDefaultOptions.getD engineDefaultOptions

/-- `needsMultiDayScheduling` from `src/core/SchedulingEngine.ts`. -/
def needsMultiDayScheduling (sessions : List InterviewSession) : Bool :=
  sessions.any (fun session => session.breakAfter ≥ MINUTES_IN_DAY)

/-- The single-day branch of `SchedulingEngine.findSlots`: loop the date
range, concatenating each day's results, breaking once the cap is
reached. -/
def engineSingleDayLoop (sessions : List InterviewSession)
    (interviewers : List Interviewer)
    (calendarEvents : List (String × List CalendarEvent))
    (options : SchedulingOptions) (now : Int) :
    List Int → List SessionCombination → List SessionCombination
  | [], allSlots => allSlots
  | d :: ds, allSlots =>
    let daySlots := findSlotsForDay sessions interviewers d calendarEvents options now
    let allSlots1 := allSlots ++ daySlots
    if maxReached options allSlots1.length then allSlots1
    else engineSingleDayLoop sessions interviewers calendarEvents options now ds allSlots1

/-- `allSlots.slice(0, maxResults)` (`undefined` keeps the whole list). -/
def sliceMax (o : Option Int) (l : List α) : List α :=
  match o with
  | Option.none => l
  | Option.some m => l.take m.toNat

/-- `SchedulingEngine.findSlots` from `src/core/SchedulingEngine.ts`:
validation (non-empty sessions, non-empty interviewers, both date-range
endpoints present — `none` models an absent/empty endpoint), option
merging, then the multi-day or single-day search.  `calendarEvents` is
the pre-fetched busy-interval snapshot. -/
def engineFindSlots (configDefaults : SchedulingOptions)
    (sessions : List InterviewSession) (interviewers : List Interviewer)
    (dateStart dateStop : Option Int) (callOptions : SchedulingOptions)
    (calendarEvents : List (String × List CalendarEvent)) (now : Int) :
    Except EngineError (List SessionCombination ⊕ List MultiDayPlan) :=
  if sessions.length = 0 then
    Except.error (EngineError.validation "At least one session is required.")
  else if interviewers.length = 0 then
    Except.error (EngineError.validation "At least one interviewer is required.")
  else
    match dateStart, dateStop with
    | Option.some ds, Option.some de =>
      let mergedOptions := mergeOptions configDefaults callOptions
      if needsMultiDayScheduling sessions then
        Except.ok
          (Sum.inr
            (findMultiDaySlots sessions interviewers ds de calendarEvents
              mergedOptions now))
      else
        Except.ok
          (Sum.inl
            (sliceMax mergedOptions.maxResults
              (engineSingleDayLoop sessions interviewers calendarEvents
                mergedOptions now (datesFromTo ds de) [])))
    | _, _ =>
      Except.error
        (EngineError.validation "A date range with a start and end is required.")

end Scheduling

namespace Scheduling

/-- A seven-day 00:00–23:59 work-hours table for the concrete scenarios. -/
def fullWeek : WorkHours :=
  { sunday := Option.some ⟨0, 1439⟩
    monday := Option.some ⟨0, 1439⟩
    tuesday := Option.some ⟨0, 1439⟩
    wednesday := Option.some ⟨0, 1439⟩
    thursday := Option.some ⟨0, 1439⟩
    friday := Option.some ⟨0, 1439⟩
    saturday := Option.some ⟨0, 1439⟩ }

/-- Generous count-based limits for the concrete scenarios. -/
def wideLimits : InterviewerLimits :=
  ⟨⟨LimitType.count, 100⟩, ⟨LimitType.count, 100⟩⟩

/-- Concrete interviewer `A`. -/
def ivA : Interviewer :=
  { id := "A", name := "A", email := "a@x.io", workHours := fullWeek,
    limits := wideLimits }

/-- Concrete interviewer `B`, off on day 0. -/
def ivB : Interviewer :=
  { id := "B", name := "B", email := "b@x.io", workHours := fullWeek,
    limits := wideLimits, dayOffs := Option.some [0] }

/-- Concrete interviewer `C`. -/
def ivC : Interviewer :=
  { id := "C", name := "C", email := "c@x.io", workHours := fullWeek,
    limits := wideLimits }

/-- Two-session single-day scenario: `breakAfter = 15` on the first
session, `0` on the second (spec Scenario C). -/
def sessionWithBreak15 : InterviewSession :=
  { id := "s1", name := "S1", duration := 60, breakAfter := 15,
    requiredInterviewers := 1, order := 1 }

/-- Second session of the Scenario C input. -/
def sessionAfterBreak15 : InterviewSession :=
  { id := "s2", name := "S2", duration := 45, breakAfter := 0,
    requiredInterviewers := 1, order := 2 }

/-- First round's only session in the two-round scenario (spec
Scenario D): `breakAfter = 1440` closes round 1. -/
def roundOneSession : InterviewSession :=
  { id := "r1", name := "R1", duration := 60, breakAfter := 1440,
    requiredInterviewers := 1, order := 1,
    interviewerPool := Option.some ["A"] }

/-- Second round's only session in the two-round scenario. -/
def roundTwoSession : InterviewSession :=
  { id := "r2", name := "R2", duration := 60, breakAfter := 0,
    requiredInterviewers := 1, order := 2,
    interviewerPool := Option.some ["C"] }

/-- First session of the C6 counterexample (`breakAfter = 0`). -/
def sessionNoBreak : InterviewSession :=
  { id := "s1", name := "S1", duration := 60, breakAfter := 0,
    requiredInterviewers := 1, order := 1 }

/-- Second session of the C6 counterexample: a *negative* `breakAfter`
(the `number`-typed field is never validated). -/
def sessionNegativeBreak : InterviewSession :=
  { id := "s2", name := "S2", duration := 60, breakAfter := -60,
    requiredInterviewers := 1, order := 2 }

/-- Round-1 session of the C4 counterexample (closes round 1, pool `A`). -/
def rankRound1Session : InterviewSession :=
  { id := "d1", name := "D1", duration := 60, breakAfter := 1440,
    requiredInterviewers := 1, order := 1,
    interviewerPool := Option.some ["A"] }

/-- First round-2 session of the C4 counterexample (pool `B`, `C`). -/
def rankRound2SessionA : InterviewSession :=
  { id := "d2", name := "D2", duration := 60, breakAfter := 0,
    requiredInterviewers := 1, order := 2,
    interviewerPool := Option.some ["B", "C"] }

/-- Second round-2 session of the C4 counterexample (pool `B`, `C`). -/
def rankRound2SessionB : InterviewSession :=
  { id := "d3", name := "D3", duration := 60, breakAfter := 0,
    requiredInterviewers := 1, order := 3,
    interviewerPool := Option.some ["B", "C"] }

/-- Start time of a plan's first round
(`plan.rounds[0].combination.startTime`, `0` if there are no rounds). -/
def planFirstStart (p : MultiDayPlan) : Int :=
  ((p.rounds.head?).map (fun r => r.combination.startTime)).getD 0

/-- Mean per-participant load density across all rounds of a plan: the
average of all per-participant density entries pooled over the rounds. -/
def planMeanDensity (p : MultiDayPlan) : Rat :=
  getAverageLoadDensity (p.rounds.flatMap (fun r => r.combination.loadDensity))

/-- The ordering the spec asserts on the returned multi-day plan list:
first round's start ascending, ties by mean density across rounds
ascending. -/
def claimedPlanOrder (p q : MultiDayPlan) : Prop :=
  planFirstStart p < planFirstStart q ∨
    (planFirstStart p = planFirstStart q ∧ planMeanDensity p ≤ planMeanDensity q)

instance : DecidableRel claimedPlanOrder := fun p q =>
  inferInstanceAs
    (Decidable (planFirstStart p < planFirstStart q ∨
      (planFirstStart p = planFirstStart q ∧
        planMeanDensity p ≤ planMeanDensity q)))

/-- Executable pairwise check (kernel-reducible, unlike the generic
`List.Pairwise` decidability instance). -/
def pairwiseB (r : α → α → Bool) : List α → Bool
  | [] => true
  | x :: xs => xs.all (r x) && pairwiseB r xs

deriving instance DecidableEq for Except

/-- A bare one-hour probe slot for the C3 witness. -/
def probeSlot : InterviewSlot :=
  { id := "slot-probe", sessionId := "s", sessionName := "S",
    startTime := 540, endTime := 600, interviewers := [],
    meetingType := "google_meet", location := Option.none }

/-- The slot-list invariant maintained by the single-day backtracking:
slots are chained (each ends no later than any later one starts) and
every end is bounded by the last slot's end. -/
def SlotChainInv (slots : List InterviewSlot) : Prop :=
  slots.Pairwise (fun a b => a.endTime ≤ b.startTime) ∧
    ∀ y ∈ slots, ∀ l ∈ slots.getLast?, y.endTime ≤ l.endTime

/-- A default (empty) combination used to pick members out of concrete
result lists. -/
def emptyCombination : SessionCombination :=
  { id := "", date := 0, slots := [], startTime := 0, endTime := 0,
    totalDuration := 0, loadDensity := [] }

/-- The start time every combination emitted from a given backtracking
state will carry: the first placed slot's start, or the day-default start
while no slot is placed yet. -/
def combStartTarget (date : Int) (slots : List InterviewSlot) : Int :=
  ((slots.head?).map (fun s => s.startTime)).getD
    (date * 1440 + DEFAULT_APPOINTMENT_START_MINUTES)

/-- Erase the timestamp-bearing id of a slot. -/
def eraseSlotId (s : InterviewSlot) : InterviewSlot := { s with id := "" }

/-- Erase the timestamp-bearing ids of a combination and its slots. -/
def eraseCombIds (c : SessionCombination) : SessionCombination :=
  { c with id := "", slots := c.slots.map eraseSlotId }

/-- Erase a round plan's timestamp-bearing ids. -/
def eraseRoundIds (r : RoundPlan) : RoundPlan :=
  { r with combination := eraseCombIds r.combination }

/-- Erase a multi-day plan's timestamp-bearing ids. -/
def erasePlanIds (p : MultiDayPlan) : MultiDayPlan :=
  { p with id := "", rounds := p.rounds.map eraseRoundIds }

end Scheduling

namespace Scheduling

/-- `pairwiseB` decides `List.Pairwise`. -/
theorem pairwiseB_iff (r : α → α → Bool) (l : List α) :
    pairwiseB r l = true ↔ List.Pairwise (fun a b => r a b = true) l := by
  induction l with
  | nil => simp [pairwiseB]
  | cons x xs ih => simp [pairwiseB, List.pairwise_cons, ih]

/-- C9 counterexample: for the degenerate (empty) interval `[540, 540)`,
`getOverlapType a a` is `none`, not `exact`, refuting "for every interval
`a`, `getOverlapType(a,a)` returns 'exact'". -/
theorem getOverlapType_degenerate_self :
    getOverlapType ⟨540, 540⟩ ⟨540, 540⟩ = OverlapType.none ∧
      getOverlapType ⟨540, 540⟩ ⟨540, 540⟩ ≠ OverlapType.exact := by
  constructor
  · rfl
  · intro h
    simp [getOverlapType] at h

/-- C9 (amended): `isTimeOverlap` is symmetric for all interval pairs; for
every non-degenerate interval `a` (start strictly before end),
`getOverlapType a a = exact`; and any two equal-duration non-overlapping
intervals classify as `none`. -/
theorem isTimeOverlap_symm_getOverlapType_exact (a b : TimeChunk) :
    (isTimeOverlap a b = isTimeOverlap b a) ∧
      (a.startTime < a.endTime → getOverlapType a a = OverlapType.exact) ∧
      (a.endTime - a.startTime = b.endTime - b.startTime →
        isTimeOverlap a b = false → getOverlapType a b = OverlapType.none) := by
  refine ⟨?_, ?_, ?_⟩
  · unfold isTimeOverlap
    by_cases h : a.endTime ≤ b.startTime ∨ a.startTime ≥ b.endTime
    · rw [if_pos h, if_pos (by omega)]
    · rw [if_neg h, if_neg (by omega)]
  · intro h
    unfold getOverlapType
    rw [if_neg (by omega), if_pos (by omega)]
  · intro _ hno
    unfold isTimeOverlap at hno
    by_cases h : a.endTime ≤ b.startTime ∨ a.startTime ≥ b.endTime
    · unfold getOverlapType
      rw [if_pos (by omega)]
    · rw [if_neg h] at hno
      exact absurd hno (by simp)

/-- Witness for the C9 theorem at concrete intervals. -/
theorem isTimeOverlap_symm_getOverlapType_exact_witness :
    getOverlapType ⟨540, 600⟩ ⟨540, 600⟩ = OverlapType.exact ∧
      getOverlapType ⟨540, 600⟩ ⟨700, 760⟩ = OverlapType.none :=
  ⟨(isTimeOverlap_symm_getOverlapType_exact ⟨540, 600⟩ ⟨540, 600⟩).2.1
      (by decide),
    (isTimeOverlap_symm_getOverlapType_exact ⟨540, 600⟩ ⟨700, 760⟩).2.2
      (by decide) (by decide)⟩

/-- C10 counterexample: at density exactly `1.0` the code returns `high`,
not `over_limit`, refuting "'over_limit' iff d ≥ 1.0" (and hence also
"'high' iff 0.9 ≤ d < 1.0"). -/
theorem getLoadDensityCategory_at_one :
    getLoadDensityCategory 1 = LoadCategory.high ∧
      getLoadDensityCategory 1 ≠ LoadCategory.over_limit ∧ (1 : Rat) ≥ 1 := by
  refine ⟨?_, ?_, le_refl 1⟩
  · unfold getLoadDensityCategory
    rw [if_neg (by norm_num), if_pos (by norm_num)]
  · intro h
    unfold getLoadDensityCategory at h
    rw [if_neg (by norm_num), if_pos (by norm_num)] at h
    exact absurd h (by simp)

/-- C10 (amended): the categorization returns `low` iff d < 0.7, `medium`
iff 0.7 ≤ d < 0.9, `high` iff 0.9 ≤ d ≤ 1.0, and `over_limit` iff
d > 1.0; and `wouldExceedLoadLimits` returns true iff the daily density
exceeds 1.0 when daily limits are enforced or the weekly density exceeds
1.0 when weekly limits are enforced. -/
theorem getLoadDensityCategory_buckets (d : Rat) (li : LoadInfo)
    (o : SchedulingOptions) :
    (getLoadDensityCategory d = LoadCategory.low ↔ d < (7 : Rat) / 10) ∧
      (getLoadDensityCategory d = LoadCategory.medium ↔
        (7 : Rat) / 10 ≤ d ∧ d < (9 : Rat) / 10) ∧
      (getLoadDensityCategory d = LoadCategory.high ↔
        (9 : Rat) / 10 ≤ d ∧ d ≤ 1) ∧
      (getLoadDensityCategory d = LoadCategory.over_limit ↔ 1 < d) ∧
      (wouldExceedLoadLimits li o = true ↔
        (truthyOpt o.respectDailyLimits = true ∧ li.daily.density > 1) ∨
          (truthyOpt o.respectWeeklyLimits = true ∧ li.weekly.density > 1)) := by
  unfold getLoadDensityCategory wouldExceedLoadLimits
  refine ⟨?_, ?_, ?_, ?_, ?_⟩
  · split_ifs with h1 h2 h3
    · exact iff_of_false (by decide) (by linarith)
    · exact iff_of_false (by decide) (by linarith)
    · exact iff_of_false (by decide) (by linarith)
    · exact iff_of_true rfl (by linarith)
  · split_ifs with h1 h2 h3
    · exact iff_of_false (by decide) (by intro hc; linarith [hc.2])
    · exact iff_of_false (by decide) (by intro hc; linarith [hc.2])
    · exact iff_of_true rfl ⟨by linarith, by linarith⟩
    · exact iff_of_false (by decide) (by intro hc; linarith [hc.1])
  · split_ifs with h1 h2 h3
    · exact iff_of_false (by decide) (by intro hc; linarith [hc.2])
    · exact iff_of_true rfl ⟨by linarith, by linarith⟩
    · exact iff_of_false (by decide) (by intro hc; linarith [hc.1])
    · exact iff_of_false (by decide) (by intro hc; linarith [hc.1])
  · split_ifs with h1 h2 h3
    · exact iff_of_true rfl (by linarith)
    · exact iff_of_false (by decide) (by linarith)
    · exact iff_of_false (by decide) (by linarith)
    · exact iff_of_false (by decide) (by linarith)
  · split_ifs with h1 h2
    · exact iff_of_true rfl (Or.inl h1)
    · exact iff_of_true rfl (Or.inr h2)
    · refine iff_of_false (by simp) ?_
      rintro (h | h)
      · exact h1 h
      · exact h2 h

/-- Witness for the C10 theorem at density 0.95 with daily limits on. -/
theorem getLoadDensityCategory_buckets_witness :
    getLoadDensityCategory ((95 : Rat) / 100) = LoadCategory.high ∧
      wouldExceedLoadLimits
        ⟨⟨2, 1, 2⟩, ⟨1, 2, (1 : Rat) / 2⟩⟩
        { respectDailyLimits := Option.some true } = true := by
  have h := getLoadDensityCategory_buckets ((95 : Rat) / 100)
    ⟨⟨2, 1, 2⟩, ⟨1, 2, (1 : Rat) / 2⟩⟩
    { respectDailyLimits := Option.some true }
  exact ⟨h.2.2.1.mpr (by norm_num), h.2.2.2.2.mpr (Or.inl (by norm_num [truthyOpt]))⟩

/-- C1 (code bug): on the Scenario D input — two sessions, the first with
`breakAfter = 1440` — `findMultiDaySlots` over the one-day range emits a
plan whose two rounds fall on the *same* date, because `findRoundSlots`
computes the inter-round gap from the current round's first session
(`currentRoundSessions[0].breakAfter = 0`) instead of the triggering
session of the earlier round (`breakAfter = 1440`). -/
theorem findMultiDaySlots_places_round2_on_round1_date :
    (findMultiDaySlots [roundOneSession, roundTwoSession] [ivA, ivC] 0 0 []
        {} 0).map (fun p => p.rounds.map (fun r => r.date)) = [[0, 0]] := by
  decide

/-- C2 (code bug): on the Scenario C input — `breakAfter = 15` on the
first session — the accepted combination's second slot starts at minute
600, i.e. exactly at the first slot's end, not at 615 = end + 15:
`calculateSessionStartTime` adds the *current* session's `breakAfter`
(here `0`), not the previous session's. -/
theorem findSlotsForDay_ignores_previous_breakAfter :
    (findSlotsForDay [sessionWithBreak15, sessionAfterBreak15] [ivA] 0 []
        {} 0).map (fun c => c.slots.map (fun s => s.startTime)) = [[540, 600]] ∧
      (600 : Int) ≠ 540 + 60 + 15 := by
  constructor
  · decide
  · decide

/-- C5 counterexample: an inverted date range (end day 3 before start
day 5) does **not** raise a validation failure — `findSlots` only checks
that both endpoints are present, and the day loop simply never runs, so
the call returns an ordinary empty result list. -/
theorem engineFindSlots_inverted_range_returns_ok_empty :
    engineFindSlots engineDefaultOptions [sessionWithBreak15] [ivA]
        (Option.some 5) (Option.some 3) {} [] 0 =
      Except.ok (Sum.inl []) := by
  decide

/-- C6 counterexample: with `breakAfter = -60` on the second session, the
single-day search accepts a combination whose two slots are both
`[540, 600)` and both assigned to participant `A` — a shared participant
with fully overlapping windows, refuting the claim over *any*
`breakAfter` values. -/
theorem findSlotsForDay_accepts_overlap_for_negative_break :
    (findSlotsForDay [sessionNoBreak, sessionNegativeBreak] [ivA] 0 [] {} 0).map
        (fun c => c.slots.map
          (fun s => (s.startTime, s.endTime,
            s.interviewers.map (fun a => a.interviewerId)))) =
      [[(540, 600, ["A"]), (540, 600, ["A"])]] ∧
      isTimeOverlap ⟨540, 600⟩ ⟨540, 600⟩ = true := by
  constructor
  · decide
  · decide

/-- C8 counterexample: re-running the identical single-day search at a
later wall clock (`Date.now()` reads 0, then 1) yields a different result
list — the combination and slot ids embed the timestamp. -/
theorem findSlotsForDay_differs_across_clock :
    findSlotsForDay [sessionWithBreak15] [ivA] 0 [] {} 0 ≠
      findSlotsForDay [sessionWithBreak15] [ivA] 0 [] {} 1 := by
  decide

/-- C4 counterexample: with interviewer `B` off on day 0, the multi-day
search emits (capped at two results) first the plan whose round 2 is
`C`-double-booked on day 0 (mean density 3/8), then the plan whose round
2 splits `B`/`C` on day 1 (mean density 1/4).  Both plans share the same
first-round start, so the returned list is *not* sorted by (first start,
mean density across rounds). -/
theorem findMultiDaySlots_not_sorted_by_claimed_order :
    ¬ List.Pairwise claimedPlanOrder
        (findMultiDaySlots
          [rankRound1Session, rankRound2SessionA, rankRound2SessionB]
          [ivA, ivB, ivC] 0 1 [] { maxResults := Option.some 2 } 0) := by
  intro h
  have hb :
      pairwiseB (fun p q => decide (claimedPlanOrder p q))
        (findMultiDaySlots
          [rankRound1Session, rankRound2SessionA, rankRound2SessionB]
          [ivA, ivB, ivC] 0 1 [] { maxResults := Option.some 2 } 0) = true :=
    (pairwiseB_iff _ _).mpr (h.imp (fun hpq => decide_eq_true hpq))
  exact absurd hb (by decide)

end Scheduling

namespace Scheduling

/-- Every generated combination is a sublist of the pool. -/
theorem generateCombinations_sublist (arr : List α) (k : Nat)
    (c : List α) (hc : c ∈ generateCombinations arr k) : c.Sublist arr := by
  induction arr generalizing k c with
  | nil =>
    match k, hc with
    | 0, hc => simp [generateCombinations] at hc; simp [hc]
    | k + 1, hc => simp [generateCombinations] at hc
  | cons a rest ih =>
    match k, hc with
    | 0, hc => simp [generateCombinations] at hc; simp [hc]
    | k + 1, hc =>
      rw [generateCombinations] at hc
      split at hc
      · simp at hc
      · rw [List.mem_append] at hc
        rcases hc with hc | hc
        · obtain ⟨c', hc', rfl⟩ := List.mem_map.mp hc
          exact (ih k c' hc').cons₂ a
        · exact (ih (k + 1) c hc).cons a

/-- Every generated combination has exactly the requested size. -/
theorem generateCombinations_mem_length (arr : List α) (k : Nat)
    (c : List α) (hc : c ∈ generateCombinations arr k) : c.length = k := by
  induction arr generalizing k c with
  | nil =>
    match k, hc with
    | 0, hc => simp [generateCombinations] at hc; simp [hc]
    | k + 1, hc => simp [generateCombinations] at hc
  | cons a rest ih =>
    match k, hc with
    | 0, hc => simp [generateCombinations] at hc; simp [hc]
    | k + 1, hc =>
      rw [generateCombinations] at hc
      split at hc
      · simp at hc
      · rw [List.mem_append] at hc
        rcases hc with hc | hc
        · obtain ⟨c', hc', rfl⟩ := List.mem_map.mp hc
          simp [ih k c' hc']
        · exact ih (k + 1) c hc

/-- The generator returns exactly `C(n, k)` combinations. -/
theorem generateCombinations_length (arr : List α) (k : Nat) :
    (generateCombinations arr k).length = arr.length.choose k := by
  induction arr generalizing k with
  | nil =>
    match k with
    | 0 => rfl
    | k + 1 => rfl
  | cons a rest ih =>
    match k with
    | 0 => rfl
    | k + 1 =>
      rw [generateCombinations]
      split
      · next h =>
        simp only [List.length_nil, List.length_cons]
        rw [Nat.choose_eq_zero_of_lt (by simpa using h)]
      · next h =>
        simp only [List.length_append, List.length_map, ih,
          List.length_cons, Nat.choose_succ_succ]

/-- With a duplicate-free pool the generated combinations are pairwise
distinct. -/
theorem generateCombinations_nodup (arr : List α) (k : Nat)
    (harr : arr.Nodup) : (generateCombinations arr k).Nodup := by
  induction arr generalizing k with
  | nil =>
    match k with
    | 0 => simp [generateCombinations]
    | k + 1 => simp [generateCombinations]
  | cons a rest ih =>
    have hna : a ∉ rest := (List.nodup_cons.mp harr).1
    have hrest : rest.Nodup := (List.nodup_cons.mp harr).2
    match k with
    | 0 => simp [generateCombinations]
    | k + 1 =>
      rw [generateCombinations]
      split
      · simp
      · rw [List.nodup_append]
        refine ⟨?_, ih (k + 1) hrest, ?_⟩
        · exact (ih k hrest).map (fun c d h => (List.cons.injEq _ _ _ _).mp h |>.2)
        · intro x hx hy
          obtain ⟨c', _, rfl⟩ := List.mem_map.mp hx
          have hsub := generateCombinations_sublist rest (k + 1) _ hy
          exact hna (hsub.subset (by simp))

/-- The generated combinations appear in lexicographic order relative to
any order `r` that sorts the input pool (for a duplicate-free pool,
"earlier in the pool" is such an order). -/
theorem generateCombinations_pairwise_lex (arr : List α) (k : Nat)
    (r : α → α → Prop) (harr : arr.Pairwise r) :
    (generateCombinations arr k).Pairwise (List.Lex r) := by
  induction arr generalizing k with
  | nil =>
    match k with
    | 0 => simp [generateCombinations]
    | k + 1 => simp [generateCombinations]
  | cons a rest ih =>
    have hhead : ∀ b ∈ rest, r a b := (List.pairwise_cons.mp harr).1
    have hrest : rest.Pairwise r := (List.pairwise_cons.mp harr).2
    match k with
    | 0 => simp [generateCombinations]
    | k + 1 =>
      rw [generateCombinations]
      split
      · simp
      · rw [List.pairwise_append]
        refine ⟨?_, ih (k + 1) hrest, ?_⟩
        · rw [List.pairwise_map]
          exact (ih k hrest).imp (fun h => List.Lex.cons h)
        · intro x hx y hy
          obtain ⟨c', _, rfl⟩ := List.mem_map.mp hx
          have hylen := generateCombinations_mem_length rest (k + 1) y hy
          match y, hylen with
          | b :: d, _ =>
            have hb : b ∈ rest :=
              (generateCombinations_sublist rest (k + 1) _ hy).subset (by simp)
            exact List.Lex.rel (hhead b hb)

end Scheduling

namespace Scheduling

/-- C7: for every pool of `n` participants and required count `k`,
`generateCombinations` returns exactly `C(n,k)` subsets, each of size
`k`; with a duplicate-free pool there are no duplicate subsets; the order
is deterministic and lexicographic by input pool order (pairwise
`List.Lex r` for any `r` sorting the pool); `k = 0` yields the single
empty subset and `k > n` yields none. -/
theorem generateCombinations_full_spec {α : Type} :
    (∀ (arr : List α) (k : Nat),
        (generateCombinations arr k).length = arr.length.choose k) ∧
      (∀ (arr : List α) (k : Nat) (c : List α),
        c ∈ generateCombinations arr k → c.length = k) ∧
      (∀ (arr : List α) (k : Nat), arr.Nodup →
        (generateCombinations arr k).Nodup) ∧
      (∀ (arr : List α) (k : Nat) (r : α → α → Prop), arr.Pairwise r →
        (generateCombinations arr k).Pairwise (List.Lex r)) ∧
      (∀ arr : List α, generateCombinations arr 0 = [[]]) ∧
      (∀ (arr : List α) (k : Nat), arr.length < k →
        generateCombinations arr k = []) := by
  refine ⟨generateCombinations_length, generateCombinations_mem_length,
    generateCombinations_nodup, generateCombinations_pairwise_lex,
    fun arr => by cases arr <;> rfl, ?_⟩
  intro arr k hk
  match arr, k, hk with
  | [], k + 1, _ => rfl
  | a :: rest, k + 1, hk =>
    rw [generateCombinations, if_pos (by simpa using hk)]

/-- Witness for the C7 theorem on the pool `[0, 1, 2]` with `k = 2`. -/
theorem generateCombinations_full_spec_witness :
    (generateCombinations ([0, 1, 2] : List Nat) 2).length = Nat.choose 3 2 ∧
      (generateCombinations ([0, 1, 2] : List Nat) 2).Nodup ∧
      (generateCombinations ([0, 1, 2] : List Nat) 2).Pairwise
        (List.Lex (fun a b : Nat => a < b)) ∧
      generateCombinations ([0, 1, 2] : List Nat) 0 = [[]] ∧
      generateCombinations ([0, 1, 2] : List Nat) 4 = [] := by
  refine ⟨(generateCombinations_full_spec).1 [0, 1, 2] 2,
    (generateCombinations_full_spec).2.2.1 [0, 1, 2] 2 ?_,
    (generateCombinations_full_spec).2.2.2.1 [0, 1, 2] 2 _ ?_,
    (generateCombinations_full_spec).2.2.2.2.1 [0, 1, 2],
    (generateCombinations_full_spec).2.2.2.2.2 [0, 1, 2] 4 (by decide)⟩
  · simp
  · simp [List.pairwise_cons]

end Scheduling

namespace Scheduling

/-- A fold whose step only appends new elements decomposes over its
accumulator. -/
theorem foldl_step_decomp (f : List γ → β → List γ)
    (hf : ∀ a b, f a b = a ++ f [] b) :
    ∀ (l : List β) (a : List γ), l.foldl f a = a ++ l.foldl f []
  | [], a => by simp
  | b :: bs, a => by
    rw [List.foldl_cons, List.foldl_cons, foldl_step_decomp f hf bs (f a b),
      foldl_step_decomp f hf bs (f [] b), hf a b, List.append_assoc]

/-- The per-interviewer conflict step only appends to its accumulator. -/
theorem checkSlotConflictsStep_decomp (slot : InterviewSlot)
    (ce : List (String × List CalendarEvent)) (o : SchedulingOptions)
    (acc : List SlotConflict) (iv : Interviewer) :
    checkSlotConflictsStep slot ce o acc iv =
      acc ++ checkSlotConflictsStep slot ce o [] iv := by
  unfold checkSlotConflictsStep
  dsimp only
  split_ifs <;> simp [List.append_assoc]

/-- A combination is conflict-free iff every interviewer in it passes the
per-interviewer step on its own. -/
theorem checkSlotConflicts_eq_nil_iff (slot : InterviewSlot)
    (ivs : List Interviewer) (ce : List (String × List CalendarEvent))
    (o : SchedulingOptions) :
    checkSlotConflicts slot ivs ce o = [] ↔
      ∀ iv ∈ ivs, checkSlotConflictsStep slot ce o [] iv = [] := by
  unfold checkSlotConflicts
  induction ivs with
  | nil => simp
  | cons iv rest ih =>
    rw [List.foldl_cons,
      foldl_step_decomp _ (checkSlotConflictsStep_decomp slot ce o) rest _]
    simp only [List.append_eq_nil]
    rw [List.forall_mem_cons]
    constructor
    · intro h
      exact ⟨h.1, ih.mp h.2⟩
    · intro h
      exact ⟨h.1, ih.mpr h.2⟩

end Scheduling

namespace Scheduling

/-- `Option.toList o` is empty exactly when the option is `none`. -/
theorem optionToList_eq_nil (o : Option α) :
    o.toList = [] ↔ o = Option.none := by
  cases o <;> simp

/-- Under the engine's default options every constraint check
participates in the pruning decision: the per-interviewer step reports no
conflict exactly when work hours, holidays, day-offs, blocked times, all
busy-interval overlaps, and both load densities pass. -/
theorem checkSlotConflictsStep_nil_iff_default (slot : InterviewSlot)
    (ce : List (String × List CalendarEvent)) (iv : Interviewer) :
    checkSlotConflictsStep slot ce engineDefaultOptions [] iv = [] ↔
      checkWorkHours iv slot.startTime slot.endTime = Option.none ∧
        checkHolidays iv (dayNumber slot.startTime) = Option.none ∧
        checkDayOffs iv (dayNumber slot.startTime) = Option.none ∧
        checkBlockedTimes iv slot.startTime slot.endTime = Option.none ∧
        (∀ ev ∈ lookupEvents ce iv.id,
          isTimeOverlap
            ⟨normalizeClock slot.startTime, normalizeClock slot.endTime⟩
            ⟨normalizeClock ev.start, normalizeClock ev.stop⟩ = false) ∧
        (calculateInterviewerLoad iv slot (lookupEvents ce iv.id)).daily.density ≤ 1 ∧
        (calculateInterviewerLoad iv slot (lookupEvents ce iv.id)).weekly.density ≤ 1 := by
  unfold checkSlotConflictsStep isInterviewerAvailable engineDefaultOptions
  dsimp only
  simp only [truthyOpt, Option.getD_some, if_true, reduceCtorEq, ne_eq,
    not_false_eq_true, if_pos, or_self, List.append_eq_nil,
    List.filterMap_eq_nil_iff]
  split_ifs with h1 h2 h3 <;>
    simp_all [List.isEmpty_iff, List.append_eq_nil, optionToList_eq_nil,
      List.filterMap_eq_nil_iff, not_lt]

end Scheduling


namespace Scheduling



/-- C3: a search through the engine with an options object that omits
every constraint flag enforces them all.  The constructor's defaults
merged with an empty per-call options object are exactly the
all-enforced option set, and under them a candidate slot survives
pruning iff, for every interviewer of the combination, the work-hours,
holiday, day-off, blocked-time, busy-interval-overlap and daily/weekly
load checks all pass. -/
theorem engine_omitted_flags_enforced :
    mergeOptions (engineConfigDefaults Option.none) {} = engineDefaultOptions ∧
      ∀ (slot : InterviewSlot) (ivs : List Interviewer)
        (ce : List (String × List CalendarEvent)),
        (checkSlotConflicts slot ivs ce
            (mergeOptions (engineConfigDefaults Option.none) {}) = [] ↔
          ∀ iv ∈ ivs,
            checkWorkHours iv slot.startTime slot.endTime = Option.none ∧
              checkHolidays iv (dayNumber slot.startTime) = Option.none ∧
              checkDayOffs iv (dayNumber slot.startTime) = Option.none ∧
              checkBlockedTimes iv slot.startTime slot.endTime = Option.none ∧
              (∀ ev ∈ lookupEvents ce iv.id,
                isTimeOverlap
                  ⟨normalizeClock slot.startTime, normalizeClock slot.endTime⟩
                  ⟨normalizeClock ev.start, normalizeClock ev.stop⟩ = false) ∧
              (calculateInterviewerLoad iv slot
                  (lookupEvents ce iv.id)).daily.density ≤ 1 ∧
              (calculateInterviewerLoad iv slot
                  (lookupEvents ce iv.id)).weekly.density ≤ 1) := by
  refine ⟨rfl, fun slot ivs ce => ?_⟩
  rw [show mergeOptions (engineConfigDefaults Option.none) {} =
    engineDefaultOptions from rfl]
  rw [checkSlotConflicts_eq_nil_iff]
  exact forall₂_congr (fun iv _ => checkSlotConflictsStep_nil_iff_default slot ce iv)

/-- Witness for the C3 theorem: interviewer `A` with no busy intervals
passes every enforced check on the probe slot. -/
theorem engine_omitted_flags_enforced_witness :
    checkSlotConflicts probeSlot [ivA] []
      (mergeOptions (engineConfigDefaults Option.none) {}) = [] := by
  refine (engine_omitted_flags_enforced.2 probeSlot [ivA] []).mpr ?_
  intro iv hiv
  rw [List.mem_singleton] at hiv
  subst hiv
  refine ⟨by decide, by decide, by decide, by decide, by decide, by decide, by decide⟩

end Scheduling

namespace Scheduling

/-- C5 (amended): `findSlots` raises a `ValidationError` — before any
search exploration and with no partial results — for an empty session
list, an empty participant list, or a *missing* date-range endpoint; an
inverted range is not validated and simply yields an empty result.  Once
validation passes the call always returns an ordinary result: constraint
violations found during the search only prune branches and are never
surfaced as errors. -/
theorem engineFindSlots_validation (configDefaults : SchedulingOptions)
    (sessions : List InterviewSession) (interviewers : List Interviewer)
    (ds de : Option Int) (callOptions : SchedulingOptions)
    (ce : List (String × List CalendarEvent)) (now : Int) :
    (sessions = [] →
      engineFindSlots configDefaults sessions interviewers ds de callOptions
          ce now =
        Except.error
          (EngineError.validation "At least one session is required.")) ∧
      (sessions ≠ [] → interviewers = [] →
        engineFindSlots configDefaults sessions interviewers ds de callOptions
            ce now =
          Except.error
            (EngineError.validation "At least one interviewer is required.")) ∧
      (sessions ≠ [] → interviewers ≠ [] →
        (ds = Option.none ∨ de = Option.none) →
        engineFindSlots configDefaults sessions interviewers ds de callOptions
            ce now =
          Except.error
            (EngineError.validation
              "A date range with a start and end is required.")) ∧
      (sessions ≠ [] → interviewers ≠ [] → ∀ d e : Int,
        ds = Option.some d → de = Option.some e →
        ∃ result,
          engineFindSlots configDefaults sessions interviewers ds de
            callOptions ce now = Except.ok result) := by
  refine ⟨?_, ?_, ?_, ?_⟩
  · intro hs
    subst hs
    rfl
  · intro hs hi
    subst hi
    unfold engineFindSlots
    rw [if_neg (by simpa using hs)]
    rfl
  · intro hs hi hrange
    unfold engineFindSlots
    rw [if_neg (by simpa using hs), if_neg (by simpa using hi)]
    rcases hrange with h | h <;> subst h
    · rfl
    · cases ds <;> rfl
  · intro hs hi d e hd he
    subst hd
    subst he
    unfold engineFindSlots
    rw [if_neg (by simpa using hs), if_neg (by simpa using hi)]
    dsimp only
    split <;> exact ⟨_, rfl⟩

/-- Witness for the C5 theorem: empty sessions fail validation; the
Scenario C input over a valid one-day range returns an ordinary result. -/
theorem engineFindSlots_validation_witness :
    engineFindSlots engineDefaultOptions [] [ivA] (Option.some 0)
        (Option.some 0) {} [] 0 =
      Except.error
        (EngineError.validation "At least one session is required.") ∧
      ∃ result,
        engineFindSlots engineDefaultOptions [sessionWithBreak15] [ivA]
          (Option.some 0) (Option.some 0) {} [] 0 = Except.ok result :=
  ⟨(engineFindSlots_validation engineDefaultOptions [] [ivA] (Option.some 0)
      (Option.some 0) {} [] 0).1 rfl,
    (engineFindSlots_validation engineDefaultOptions [sessionWithBreak15] [ivA]
      (Option.some 0) (Option.some 0) {} [] 0).2.2.2 (by decide) (by decide)
      0 0 rfl rfl⟩

end Scheduling

namespace Scheduling

/-- Inserting keeps exactly the original elements. -/
theorem sortInsert_perm (cmp : α → α → Rat) (x : α) (l : List α) :
    (sortInsert cmp x l).Perm (x :: l) := by
  induction l with
  | nil => exact List.Perm.refl _
  | cons y ys ih =>
    unfold sortInsert
    split
    · exact (ih.cons y).trans (List.Perm.swap x y ys)
    · exact List.Perm.refl _

/-- The stable sort is a permutation of its input. -/
theorem stableSortBy_perm (cmp : α → α → Rat) (l : List α) :
    (stableSortBy cmp l).Perm l := by
  suffices h : ∀ (l acc : List α),
      (l.foldl (fun acc x => sortInsert cmp x acc) acc).Perm (acc ++ l) by
    simpa using h l []
  intro l
  induction l with
  | nil => simp
  | cons x xs ih =>
    intro acc
    rw [List.foldl_cons]
    refine (ih (sortInsert cmp x acc)).trans ?_
    refine (List.Perm.append_right xs (sortInsert_perm cmp x acc)).trans ?_
    simpa using List.perm_middle.symm

/-- Membership is invariant under the stable sort. -/
theorem mem_stableSortBy (cmp : α → α → Rat) (l : List α) (x : α) :
    x ∈ stableSortBy cmp l ↔ x ∈ l :=
  (stableSortBy_perm cmp l).mem_iff



/-- An accepted candidate slot has the requested window. -/
theorem createAndCheckSlot_window (session : InterviewSession)
    (combo : List Interviewer) (startTime : Int)
    (ce : List (String × List CalendarEvent)) (o : SchedulingOptions)
    (now : Int) (slot : InterviewSlot)
    (h : createAndCheckSlot session combo startTime ce o now =
      Option.some slot) :
    slot.startTime = startTime ∧ slot.endTime = startTime + session.duration := by
  unfold createAndCheckSlot at h
  dsimp only at h
  split at h
  · cases h
    exact ⟨rfl, rfl⟩
  · cases h

/-- Appending the next session's slot preserves the chain invariant when
durations and breaks are non-negative. -/
theorem slotChainInv_append (slots : List InterviewSlot)
    (session : InterviewSession) (date : Int) (slot : InterviewSlot)
    (hinv : SlotChainInv slots) (hdur : 0 ≤ session.duration)
    (hbreak : 0 ≤ session.breakAfter)
    (hstart : slot.startTime = calculateSessionStartTime slots session date)
    (hend : slot.endTime = slot.startTime + session.duration) :
    SlotChainInv (slots ++ [slot]) := by
  obtain ⟨hpw, hlast⟩ := hinv
  have hcross : ∀ y ∈ slots, y.endTime ≤ slot.startTime := by
    intro y hy
    rw [hstart]
    unfold calculateSessionStartTime
    cases hl : slots.getLast? with
    | none => exact absurd (List.getLast?_eq_none_iff.mp hl) (List.ne_nil_of_mem hy)
    | some l =>
      have hyl := hlast y hy l hl
      dsimp only
      omega
  constructor
  · rw [List.pairwise_append]
    exact ⟨hpw, List.pairwise_singleton _ _, fun y hy b hb => by
      rw [List.mem_singleton] at hb
      subst hb
      exact hcross y hy⟩
  · intro y hy l hl
    rw [List.getLast?_concat] at hl
    cases hl
    rw [List.mem_append, List.mem_singleton] at hy
    rcases hy with hy | rfl
    · have := hcross y hy
      omega
    · omega

end Scheduling

namespace Scheduling

/-- `comboLoopE` only emits results that were already accumulated or that
its step emits from a good accumulator. -/
theorem comboLoopE_preserves (P : SessionCombination → Prop)
    (options : SchedulingOptions)
    (step : List Interviewer → List SessionCombination →
      Option (List SessionCombination))
    (hstep : ∀ combo res, (∀ c ∈ res, P c) → ∀ res',
      step combo res = Option.some res' → ∀ c ∈ res', P c) :
    ∀ (combos : List (List Interviewer)) (acc : List SessionCombination),
      (∀ c ∈ acc, P c) → ∀ c ∈ comboLoopE options step combos acc, P c
  | [], acc, hacc => hacc
  | combo :: rest, acc, hacc => by
    unfold comboLoopE
    cases hs : step combo acc with
    | none => exact comboLoopE_preserves P options step hstep rest acc hacc
    | some res1 =>
      have hres1 := hstep combo acc hacc res1 hs
      dsimp only
      split
      · exact hres1
      · exact comboLoopE_preserves P options step hstep rest res1 hres1

/-- Every combination the backtracking emits from a chained slot prefix
over non-negative sessions has chained slots. -/
theorem exploreSlotCombinations_chained
    (sc : List (String × List (List Interviewer)))
    (ai : List Interviewer) (date : Int)
    (ce : List (String × List CalendarEvent)) (opts : SchedulingOptions)
    (now : Int) :
    ∀ (fuel : Nat) (remaining : List InterviewSession)
      (slots : List InterviewSlot) (acc : List SessionCombination),
      (∀ s ∈ remaining, 0 ≤ s.duration ∧ 0 ≤ s.breakAfter) →
      SlotChainInv slots →
      (∀ c ∈ acc, c.slots.Pairwise (fun a b => a.endTime ≤ b.startTime)) →
      ∀ c ∈ exploreSlotCombinations fuel sc ai date ce opts now remaining
          slots acc,
        c.slots.Pairwise (fun a b => a.endTime ≤ b.startTime)
  | 0, remaining, slots, acc, _, _, hacc => hacc
  | fuel + 1, [], slots, acc, _, hinv, hacc => by
    unfold exploreSlotCombinations
    intro c hc
    rw [List.mem_append, List.mem_singleton] at hc
    rcases hc with hc | rfl
    · exact hacc c hc
    · exact hinv.1
  | fuel + 1, session :: rest, slots, acc, hrem, hinv, hacc => by
    unfold exploreSlotCombinations
    refine comboLoopE_preserves _ opts _ ?_ _ acc hacc
    intro combo res hres res' hstep
    cases hcs : createAndCheckSlot session combo
        (calculateSessionStartTime slots session date) ce opts now with
    | none => rw [hcs] at hstep; cases hstep
    | some slot =>
      rw [hcs] at hstep
      cases hstep
      obtain ⟨hw1, hw2⟩ := createAndCheckSlot_window session combo _ ce opts
        now slot hcs
      have hinv2 : SlotChainInv (slots ++ [slot]) :=
        slotChainInv_append slots session date slot hinv
          (hrem session (by simp)).1 (hrem session (by simp)).2 hw1
          (by rw [hw2, hw1])
      exact exploreSlotCombinations_chained sc ai date ce opts now fuel rest
        (slots ++ [slot]) res
        (fun s hs => hrem s (List.mem_cons_of_mem _ hs)) hinv2 hres

/-- C6 (amended): over any session list whose durations and `breakAfter`
values are all non-negative, every combination accepted by the single-day
search has pairwise non-overlapping slots; in particular, for every pair
of its slots and every participant assigned to both, the two windows do
not overlap. -/
theorem findSlotsForDay_shared_participant_no_overlap
    (sessions : List InterviewSession) (interviewers : List Interviewer)
    (date : Int) (ce : List (String × List CalendarEvent))
    (opts : SchedulingOptions) (now : Int)
    (h : ∀ s ∈ sessions, 0 ≤ s.duration ∧ 0 ≤ s.breakAfter) :
    ∀ comb ∈ findSlotsForDay sessions interviewers date ce opts now,
      comb.slots.Pairwise (fun a b =>
        (∃ pid, pid ∈ a.interviewers.map (fun x => x.interviewerId) ∧
            pid ∈ b.interviewers.map (fun x => x.interviewerId)) →
          isTimeOverlap ⟨a.startTime, a.endTime⟩ ⟨b.startTime, b.endTime⟩ =
            false) := by
  intro comb hcomb
  unfold findSlotsForDay at hcomb
  rw [mem_stableSortBy] at hcomb
  have hchain := exploreSlotCombinations_chained
    (generateInterviewerCombinations
      (stableSortBy (fun a b => ((a.order - b.order : Int) : Rat)) sessions)
      interviewers opts)
    interviewers date ce opts now _ _ [] []
    (fun s hs => h s ((mem_stableSortBy _ sessions s).mp hs))
    ⟨List.Pairwise.nil, by simp⟩ (by simp) comb hcomb
  refine hchain.imp ?_
  intro a b hab _
  unfold isTimeOverlap
  rw [if_pos (Or.inl hab)]

end Scheduling

namespace Scheduling



/-- Witness for the C6 theorem on the Scenario C input. -/
theorem findSlotsForDay_shared_participant_no_overlap_witness :
    ((findSlotsForDay [sessionWithBreak15, sessionAfterBreak15] [ivA] 0 [] {}
          0).headD emptyCombination).slots.Pairwise (fun a b =>
      (∃ pid, pid ∈ a.interviewers.map (fun x => x.interviewerId) ∧
          pid ∈ b.interviewers.map (fun x => x.interviewerId)) →
        isTimeOverlap ⟨a.startTime, a.endTime⟩ ⟨b.startTime, b.endTime⟩ =
          false) :=
  findSlotsForDay_shared_participant_no_overlap
    [sessionWithBreak15, sessionAfterBreak15] [ivA] 0 [] {} 0 (by decide)
    _ (by decide)

end Scheduling

namespace Scheduling



/-- Every combination the backtracking emits (beyond the accumulator)
starts at the state's target start time. -/
theorem exploreSlotCombinations_startTime
    (sc : List (String × List (List Interviewer)))
    (ai : List Interviewer) (date : Int)
    (ce : List (String × List CalendarEvent)) (opts : SchedulingOptions)
    (now : Int) :
    ∀ (fuel : Nat) (remaining : List InterviewSession)
      (slots : List InterviewSlot) (acc : List SessionCombination),
      (slots = [] → remaining ≠ []) →
      ∀ c ∈ exploreSlotCombinations fuel sc ai date ce opts now remaining
          slots acc,
        c ∈ acc ∨ c.startTime = combStartTarget date slots
  | 0, remaining, slots, acc, _ => fun c hc => Or.inl hc
  | fuel + 1, [], slots, acc, hne => by
    unfold exploreSlotCombinations
    intro c hc
    rw [List.mem_append, List.mem_singleton] at hc
    rcases hc with hc | rfl
    · exact Or.inl hc
    · right
      match slots, hne with
      | [], hne => exact absurd rfl (hne rfl)
      | s :: rest, _ => rfl
  | fuel + 1, session :: rest, slots, acc, hne => by
    unfold exploreSlotCombinations
    refine comboLoopE_preserves _ opts _ ?_ _ acc (fun c hc => Or.inl hc)
    intro combo res hres res' hstep
    cases hcs : createAndCheckSlot session combo
        (calculateSessionStartTime slots session date) ce opts now with
    | none => rw [hcs] at hstep; cases hstep
    | some slot =>
      rw [hcs] at hstep
      cases hstep
      intro c hc
      have hw := createAndCheckSlot_window session combo _ ce opts now slot hcs
      have htarget : combStartTarget date (slots ++ [slot]) =
          combStartTarget date slots := by
        cases slots with
        | nil =>
          unfold combStartTarget
          simp [hw.1, calculateSessionStartTime]
        | cons x xs =>
          unfold combStartTarget
          simp
      have := exploreSlotCombinations_startTime sc ai date ce opts now fuel
        rest (slots ++ [slot]) res (by simp) c hc
      rcases this with h | h
      · exact hres c h
      · right
        rw [h, htarget]

end Scheduling

namespace Scheduling

/-- For a non-empty session list, every combination of a single-day search
starts at the day-default start time of the searched date. -/
theorem findSlotsForDay_startTime (sessions : List InterviewSession)
    (interviewers : List Interviewer) (date : Int)
    (ce : List (String × List CalendarEvent)) (opts : SchedulingOptions)
    (now : Int) (hne : sessions ≠ []) :
    ∀ comb ∈ findSlotsForDay sessions interviewers date ce opts now,
      comb.startTime = date * 1440 + DEFAULT_APPOINTMENT_START_MINUTES := by
  intro comb hcomb
  unfold findSlotsForDay at hcomb
  rw [mem_stableSortBy] at hcomb
  have hsne : stableSortBy (fun a b => ((a.order - b.order : Int) : Rat))
      sessions ≠ [] := by
    intro h
    have hlen := (stableSortBy_perm
      (fun a b => ((a.order - b.order : Int) : Rat)) sessions).length_eq
    rw [h] at hlen
    exact hne (List.length_eq_zero.mp hlen.symm)
  have := exploreSlotCombinations_startTime
    (generateInterviewerCombinations
      (stableSortBy (fun a b => ((a.order - b.order : Int) : Rat)) sessions)
      interviewers opts)
    interviewers date ce opts now _ _ [] [] (fun _ => hsne) comb hcomb
  rcases this with h | h
  · cases h
  · exact h

/-- Rounds produced by `groupSessionsIntoRounds` are never empty. -/
theorem groupSessionsIntoRounds_nonempty (sessions : List InterviewSession) :
    ∀ r ∈ groupSessionsIntoRounds sessions, r ≠ [] := by
  unfold groupSessionsIntoRounds
  dsimp only
  suffices h : ∀ (l : List InterviewSession)
      (state : List (List InterviewSession) × List InterviewSession),
      (∀ r ∈ state.1, r ≠ []) →
      ∀ r ∈ (l.foldl
          (fun (p : List (List InterviewSession) × List InterviewSession)
              session =>
            let currentRound := p.2 ++ [session]
            if session.breakAfter ≥ MINUTES_IN_DAY then
              (p.1 ++ [currentRound], [])
            else (p.1, currentRound))
          state).1, r ≠ [] by
    intro r hr
    split at hr
    · exact h _ ([], []) (by simp) r hr
    · next hne =>
      rw [List.mem_append, List.mem_singleton] at hr
      rcases hr with hr | rfl
      · exact h _ ([], []) (by simp) r hr
      · intro hcon
        rw [hcon] at hne
        simp at hne
  intro l
  induction l with
  | nil => intro state hstate r hr; exact hstate r hr
  | cons session rest ih =>
    intro state hstate r hr
    rw [List.foldl_cons] at hr
    refine ih _ ?_ r hr
    dsimp only
    split
    · intro r' hr'
      rw [List.mem_append, List.mem_singleton] at hr'
      rcases hr' with hr' | rfl
      · exact hstate r' hr'
      · simp
    · exact hstate

/-- The visited date list ascends. -/
theorem datesFromTo_pairwise_le (s e : Int) :
    (datesFromTo s e).Pairwise (fun a b => a ≤ b) :=
  List.Pairwise.map (fun i : Nat => s + Int.ofNat i)
    (fun a b h => by
      have hh : a < b := h
      show s + (a : Int) ≤ s + (b : Int)
      omega)
    (List.pairwise_lt_range _)

end Scheduling

namespace Scheduling

/-- The plan-combination loop appends exactly the plans its round
recursion emits, all satisfying a per-emission property. -/
theorem planComboLoop_emit (Q : MultiDayPlan → Prop)
    (opts : SchedulingOptions)
    (recRound : List RoundPlan → List MultiDayPlan → List MultiDayPlan)
    (prev : List RoundPlan) (date : Int) (cur : List InterviewSession) :
    ∀ (combos : List SessionCombination) (res : List MultiDayPlan),
      (∀ combo res₂, combo ∈ combos →
        ∃ ext₂, recRound (prev ++ [⟨prev.length, date, combo, cur⟩]) res₂ =
          res₂ ++ ext₂ ∧ ∀ p ∈ ext₂, Q p) →
      ∃ ext, planComboLoop opts recRound prev date cur combos res =
        res ++ ext ∧ ∀ p ∈ ext, Q p
  | [], res, _ => ⟨[], by simp [planComboLoop]⟩
  | combo :: rest, res, hrec => by
    unfold planComboLoop
    split
    · exact planComboLoop_emit Q opts recRound prev date cur rest res
        (fun c r hc => hrec c r (List.mem_cons_of_mem _ hc))
    · obtain ⟨ext1, heq1, hQ1⟩ := hrec combo res (List.mem_cons_self _ _)
      dsimp only
      rw [heq1]
      split
      · exact ⟨ext1, rfl, hQ1⟩
      · obtain ⟨ext2, heq2, hQ2⟩ :=
          planComboLoop_emit Q opts recRound prev date cur rest (res ++ ext1)
            (fun c r hc => hrec c r (List.mem_cons_of_mem _ hc))
        refine ⟨ext1 ++ ext2, by rw [heq2, List.append_assoc], ?_⟩
        intro p hp
        rw [List.mem_append] at hp
        rcases hp with hp | hp
        · exact hQ1 p hp
        · exact hQ2 p hp

/-- The daily loop appends exactly the per-date emissions. -/
theorem dateLoop_emit (Q : Int → MultiDayPlan → Prop)
    (ivs : List Interviewer) (ce : List (String × List CalendarEvent))
    (opts : SchedulingOptions) (now : Int)
    (recRound : List RoundPlan → List MultiDayPlan → List MultiDayPlan)
    (cur : List InterviewSession) (prev : List RoundPlan) :
    ∀ (ds : List Int) (res : List MultiDayPlan),
      (∀ d res₂, d ∈ ds →
        ∃ ext₂, planComboLoop opts recRound prev d cur
            (findSlotsForDay cur ivs d ce opts now) res₂ = res₂ ++ ext₂ ∧
          ∀ p ∈ ext₂, Q d p) →
      ∃ ext, dateLoop ivs ce opts now recRound cur prev ds res = res ++ ext ∧
        ∀ p ∈ ext, ∃ d ∈ ds, Q d p
  | [], res, _ => ⟨[], by simp [dateLoop]⟩
  | d :: ds, res, hday => by
    unfold dateLoop
    obtain ⟨ext1, heq1, hQ1⟩ := hday d res (List.mem_cons_self _ _)
    dsimp only
    rw [heq1]
    split
    · exact ⟨ext1, rfl, fun p hp => ⟨d, List.mem_cons_self _ _, hQ1 p hp⟩⟩
    · obtain ⟨ext2, heq2, hQ2⟩ :=
        dateLoop_emit Q ivs ce opts now recRound cur prev ds (res ++ ext1)
          (fun d2 r hd2 => hday d2 r (List.mem_cons_of_mem _ hd2))
      refine ⟨ext1 ++ ext2, by rw [heq2, List.append_assoc], ?_⟩
      intro p hp
      rw [List.mem_append] at hp
      rcases hp with hp | hp
      · exact ⟨d, List.mem_cons_self _ _, hQ1 p hp⟩
      · obtain ⟨d2, hd2, hq⟩ := hQ2 p hp
        exact ⟨d2, List.mem_cons_of_mem _ hd2, hq⟩

/-- The round recursion appends exactly its new plans; when it continues
a non-empty plan prefix, every appended plan keeps that prefix's first
round. -/
theorem findRoundSlots_emit :
    ∀ (fuel : Nat) (ivs : List Interviewer)
      (ce : List (String × List CalendarEvent)) (opts : SchedulingOptions)
      (now sd ed : Int) (remaining : List (List InterviewSession))
      (prev : List RoundPlan) (res : List MultiDayPlan),
      ∃ ext, findRoundSlots fuel ivs ce opts now sd ed remaining prev res =
        res ++ ext ∧
        (prev ≠ [] → ∀ p ∈ ext, p.rounds.head? = prev.head?)
  | 0, ivs, ce, opts, now, sd, ed, remaining, prev, res =>
    ⟨[], by simp [findRoundSlots], fun _ p hp => absurd hp (List.not_mem_nil p)⟩
  | fuel + 1, ivs, ce, opts, now, sd, ed, [], prev, res => by
    refine ⟨_, rfl, ?_⟩
    intro _ p hp
    rw [List.mem_singleton] at hp
    subst hp
    rfl
  | fuel + 1, ivs, ce, opts, now, sd, ed, cur :: rest, prev, res => by
    have H : ∀ ds0 : List Int, ∃ ext,
        dateLoop ivs ce opts now (findRoundSlots fuel ivs ce opts now sd ed
          rest) cur prev ds0 res = res ++ ext ∧
        (prev ≠ [] → ∀ p ∈ ext, p.rounds.head? = prev.head?) := by
      intro ds0
      have hday : ∀ d res₂, d ∈ ds0 →
          ∃ ext₂, planComboLoop opts
              (findRoundSlots fuel ivs ce opts now sd ed rest) prev d cur
              (findSlotsForDay cur ivs d ce opts now) res₂ = res₂ ++ ext₂ ∧
            ∀ p ∈ ext₂, prev ≠ [] → p.rounds.head? = prev.head? := by
        intro d res₂ _
        refine planComboLoop_emit _ opts _ prev d cur
          (findSlotsForDay cur ivs d ce opts now) res₂ ?_
        intro combo res₃ _
        obtain ⟨ext₃, heq₃, hhead₃⟩ := findRoundSlots_emit fuel ivs ce opts
          now sd ed rest (prev ++ [⟨prev.length, d, combo, cur⟩]) res₃
        refine ⟨ext₃, heq₃, ?_⟩
        intro p hp hprev
        have hp2 := hhead₃ (by simp) p hp
        rw [hp2]
        cases prev with
        | nil => exact absurd rfl hprev
        | cons x xs => rfl
      obtain ⟨ext, heq, hall⟩ := dateLoop_emit
        (fun _ p => prev ≠ [] → p.rounds.head? = prev.head?) ivs ce opts now
        (findRoundSlots fuel ivs ce opts now sd ed rest) cur prev ds0 res hday
      refine ⟨ext, heq, fun hprev p hp => ?_⟩
      obtain ⟨d, _, hq⟩ := hall p hp
      exact hq hprev
    unfold findRoundSlots
    exact H _

end Scheduling

namespace Scheduling

/-- Round-0 daily loop: starting from a suitably bounded sorted
accumulator and ascending dates, the produced plan list stays sorted by
the first round's start time. -/
theorem dateLoop_sorted (ivs : List Interviewer)
    (ce : List (String × List CalendarEvent)) (opts : SchedulingOptions)
    (now : Int)
    (recRound : List RoundPlan → List MultiDayPlan → List MultiDayPlan)
    (cur : List InterviewSession) (hcur : cur ≠ [])
    (hrec : ∀ prev₂ res₂, ∃ ext₂, recRound prev₂ res₂ = res₂ ++ ext₂ ∧
      (prev₂ ≠ [] → ∀ p ∈ ext₂, p.rounds.head? = prev₂.head?)) :
    ∀ (ds : List Int) (res : List MultiDayPlan),
      ds.Pairwise (fun a b => a ≤ b) →
      res.Pairwise (fun p q => planFirstStart p ≤ planFirstStart q) →
      (∀ p ∈ res, ∀ d ∈ ds,
        planFirstStart p ≤ d * 1440 + DEFAULT_APPOINTMENT_START_MINUTES) →
      (dateLoop ivs ce opts now recRound cur [] ds res).Pairwise
        (fun p q => planFirstStart p ≤ planFirstStart q)
  | [], res, _, hres, _ => hres
  | d :: ds, res, hds, hres, hbound => by
    have hblock : ∃ ext, planComboLoop opts recRound [] d cur
        (findSlotsForDay cur ivs d ce opts now) res = res ++ ext ∧
        ∀ p ∈ ext,
          planFirstStart p = d * 1440 + DEFAULT_APPOINTMENT_START_MINUTES := by
      refine planComboLoop_emit _ opts recRound [] d cur _ res ?_
      intro combo res₂ hc
      obtain ⟨ext₂, heq₂, hhead₂⟩ := hrec [⟨0, d, combo, cur⟩] res₂
      refine ⟨ext₂, by simpa using heq₂, ?_⟩
      intro p hp
      have hh := hhead₂ (by simp) p hp
      unfold planFirstStart
      rw [hh]
      simpa using findSlotsForDay_startTime cur ivs d ce opts now hcur combo hc
    obtain ⟨ext1, heq1, hQ1⟩ := hblock
    have hd_le : ∀ d2 ∈ ds, d ≤ d2 := (List.pairwise_cons.mp hds).1
    have hpair1 : (res ++ ext1).Pairwise
        (fun p q => planFirstStart p ≤ planFirstStart q) := by
      rw [List.pairwise_append]
      refine ⟨hres, ?_, ?_⟩
      · refine List.pairwise_of_forall_mem_list ?_
        intro p hp q hq
        rw [hQ1 p hp, hQ1 q hq]
      · intro p hp q hq
        rw [hQ1 q hq]
        exact hbound p hp d (List.mem_cons_self _ _)
    unfold dateLoop
    dsimp only
    rw [heq1]
    split
    · exact hpair1
    · refine dateLoop_sorted ivs ce opts now recRound cur hcur hrec ds
        (res ++ ext1) (List.Pairwise.of_cons hds) hpair1 ?_
      intro p hp d2 hd2
      rw [List.mem_append] at hp
      rcases hp with hp | hp
      · exact hbound p hp d2 (List.mem_cons_of_mem _ hd2)
      · rw [hQ1 p hp]
        have := hd_le d2 hd2
        unfold DEFAULT_APPOINTMENT_START_MINUTES
        omega

/-- C4 (amended): the multi-day search emits its plans ordered
non-decreasingly by the first round's start time (plans sharing a first
start appear in search order; no mean-density tie-break is applied). -/
theorem findMultiDaySlots_ordered_by_first_start
    (sessions : List InterviewSession) (interviewers : List Interviewer)
    (startDate endDate : Int) (ce : List (String × List CalendarEvent))
    (opts : SchedulingOptions) (now : Int) :
    (findMultiDaySlots sessions interviewers startDate endDate ce opts
        now).Pairwise (fun p q => planFirstStart p ≤ planFirstStart q) := by
  unfold findMultiDaySlots
  dsimp only
  cases hr : groupSessionsIntoRounds sessions with
  | nil => simp [findRoundSlots]
  | cons cur rest =>
    have hcur : cur ≠ [] :=
      groupSessionsIntoRounds_nonempty sessions cur
        (hr ▸ List.mem_cons_self _ _)
    rw [List.length_cons]
    show (findRoundSlots (rest.length + 1 + 1) interviewers ce opts now
      startDate endDate (cur :: rest) [] []).Pairwise
      (fun p q => planFirstStart p ≤ planFirstStart q)
    unfold findRoundSlots
    dsimp only
    exact dateLoop_sorted interviewers ce opts now _ cur hcur
      (fun prev₂ res₂ => findRoundSlots_emit (rest.length + 1) interviewers
        ce opts now startDate endDate rest prev₂ res₂)
      _ [] (datesFromTo_pairwise_le _ _) List.Pairwise.nil (by simp)

end Scheduling

namespace Scheduling



@[simp]
theorem eraseSlotId_startTime (s : InterviewSlot) :
    (eraseSlotId s).startTime = s.startTime := rfl

@[simp]
theorem eraseSlotId_endTime (s : InterviewSlot) :
    (eraseSlotId s).endTime = s.endTime := rfl

@[simp]
theorem eraseSlotId_interviewers (s : InterviewSlot) :
    (eraseSlotId s).interviewers = s.interviewers := rfl

@[simp]
theorem eraseCombIds_startTime (c : SessionCombination) :
    (eraseCombIds c).startTime = c.startTime := rfl

@[simp]
theorem eraseCombIds_loadDensity (c : SessionCombination) :
    (eraseCombIds c).loadDensity = c.loadDensity := rfl

/-- Projections invariant under slot-id erasure coincide on erase-equal
slot lists. -/
theorem map_congr_of_erase {β : Type} (f : InterviewSlot → β)
    (hf : ∀ s, f (eraseSlotId s) = f s) (l1 l2 : List InterviewSlot)
    (h : l1.map eraseSlotId = l2.map eraseSlotId) : l1.map f = l2.map f := by
  have hfe : f ∘ eraseSlotId = f := funext hf
  calc l1.map f = (l1.map eraseSlotId).map f := by
        rw [List.map_map, hfe]
    _ = (l2.map eraseSlotId).map f := by rw [h]
    _ = l2.map f := by rw [List.map_map, hfe]

/-- A fold that reads its elements through an erase-invariant projection
coincides on erase-equal slot lists. -/
theorem foldl_congr_of_map {α β γ : Type} (f : α → β) (g : γ → β → γ)
    (l1 l2 : List α) (h : l1.map f = l2.map f) (a : γ) :
    l1.foldl (fun acc x => g acc (f x)) a =
      l2.foldl (fun acc x => g acc (f x)) a := by
  have key : ∀ (l : List α) (a : γ),
      l.foldl (fun acc x => g acc (f x)) a = (l.map f).foldl g a := by
    intro l
    induction l with
    | nil => intro a; rfl
    | cons x xs ih => intro a; simp [ih]
  rw [key, key, h]

/-- The conflict check reads a slot only through its window. -/
theorem checkSlotConflictsStep_congr (s1 s2 : InterviewSlot)
    (h1 : s1.startTime = s2.startTime) (h2 : s1.endTime = s2.endTime)
    (ce : List (String × List CalendarEvent)) (o : SchedulingOptions)
    (acc : List SlotConflict) (iv : Interviewer) :
    checkSlotConflictsStep s1 ce o acc iv =
      checkSlotConflictsStep s2 ce o acc iv := by
  unfold checkSlotConflictsStep calculateInterviewerLoad calculateSlotDuration
  rw [h1, h2]

/-- `checkSlotConflicts` reads a slot only through its window. -/
theorem checkSlotConflicts_congr (s1 s2 : InterviewSlot)
    (h1 : s1.startTime = s2.startTime) (h2 : s1.endTime = s2.endTime)
    (ivs : List Interviewer) (ce : List (String × List CalendarEvent))
    (o : SchedulingOptions) :
    checkSlotConflicts s1 ivs ce o = checkSlotConflicts s2 ivs ce o := by
  unfold checkSlotConflicts
  congr 1
  funext acc iv
  exact checkSlotConflictsStep_congr s1 s2 h1 h2 ce o acc iv

/-- Candidate slots accepted at different clock readings agree after id
erasure. -/
theorem createAndCheckSlot_erase (session : InterviewSession)
    (combo : List Interviewer) (st : Int)
    (ce : List (String × List CalendarEvent)) (o : SchedulingOptions)
    (t1 t2 : Int) :
    (createAndCheckSlot session combo st ce o t1).map eraseSlotId =
      (createAndCheckSlot session combo st ce o t2).map eraseSlotId := by
  unfold createAndCheckSlot
  dsimp only
  rw [checkSlotConflicts_congr
    { id := "slot-" ++ session.id ++ "-" ++ toString t1
      sessionId := session.id
      sessionName := session.name
      startTime := st
      endTime := st + session.duration
      interviewers :=
        combo.map (fun i => ⟨i.id, i.name, i.email, i.isTraining, "pending"⟩)
      meetingType := session.meetingType.getD "google_meet"
      location := session.location }
    { id := "slot-" ++ session.id ++ "-" ++ toString t2
      sessionId := session.id
      sessionName := session.name
      startTime := st
      endTime := st + session.duration
      interviewers :=
        combo.map (fun i => ⟨i.id, i.name, i.email, i.isTraining, "pending"⟩)
      meetingType := session.meetingType.getD "google_meet"
      location := session.location }
    rfl rfl combo ce o]
  split <;> rfl

end Scheduling

namespace Scheduling

/-- Erase-equal slot lists agree on any erase-invariant `head?`
projection. -/
theorem headOption_congr_of_erase {β : Type} (f : InterviewSlot → β)
    (hf : ∀ s, f (eraseSlotId s) = f s) (l1 l2 : List InterviewSlot)
    (h : l1.map eraseSlotId = l2.map eraseSlotId) :
    l1.head?.map f = l2.head?.map f := by
  have := map_congr_of_erase f hf l1 l2 h
  rw [← List.head?_map, ← List.head?_map, this]

/-- Erase-equal slot lists agree on any erase-invariant `getLast?`
projection. -/
theorem lastOption_congr_of_erase {β : Type} (f : InterviewSlot → β)
    (hf : ∀ s, f (eraseSlotId s) = f s) (l1 l2 : List InterviewSlot)
    (h : l1.map eraseSlotId = l2.map eraseSlotId) :
    l1.getLast?.map f = l2.getLast?.map f := by
  have := map_congr_of_erase f hf l1 l2 h
  rw [← List.getLast?_map, ← List.getLast?_map, this]

/-- The session start computation only reads the erased view of the
placed slots. -/
theorem calculateSessionStartTime_congr (slots1 slots2 : List InterviewSlot)
    (session : InterviewSession) (date : Int)
    (h : slots1.map eraseSlotId = slots2.map eraseSlotId) :
    calculateSessionStartTime slots1 session date =
      calculateSessionStartTime slots2 session date := by
  unfold calculateSessionStartTime
  have hl := lastOption_congr_of_erase (fun s => s.endTime) (fun _ => rfl)
    slots1 slots2 h
  cases h1 : slots1.getLast? with
  | none =>
    cases h2 : slots2.getLast? with
    | none => rfl
    | some l2 => rw [h1, h2] at hl; exact absurd hl (by simp)
  | some l1 =>
    cases h2 : slots2.getLast? with
    | none => rw [h1, h2] at hl; exact absurd hl (by simp)
    | some l2 =>
      rw [h1, h2] at hl
      have hend : l1.endTime = l2.endTime := by simpa using hl
      dsimp only
      rw [hend]

/-- The total-span computation only reads the erased view of the slots. -/
theorem calculateTotalDuration_congr (slots1 slots2 : List InterviewSlot)
    (h : slots1.map eraseSlotId = slots2.map eraseSlotId) :
    calculateTotalDuration slots1 = calculateTotalDuration slots2 := by
  unfold calculateTotalDuration
  have hh := headOption_congr_of_erase (fun s => s.startTime) (fun _ => rfl)
    slots1 slots2 h
  have hl := lastOption_congr_of_erase (fun s => s.endTime) (fun _ => rfl)
    slots1 slots2 h
  cases h1 : slots1.head? with
  | none =>
    cases h2 : slots2.head? with
    | none => rfl
    | some s2 => rw [h1, h2] at hh; exact absurd hh (by simp)
  | some s1 =>
    cases h2 : slots2.head? with
    | none => rw [h1, h2] at hh; exact absurd hh (by simp)
    | some s2 =>
      rw [h1, h2] at hh
      have hs : s1.startTime = s2.startTime := by simpa using hh
      cases h3 : slots1.getLast? with
      | none =>
        cases h4 : slots2.getLast? with
        | none => rfl
        | some l2 => rw [h3, h4] at hl; exact absurd hl (by simp)
      | some l1 =>
        cases h4 : slots2.getLast? with
        | none => rw [h3, h4] at hl; exact absurd hl (by simp)
        | some l2 =>
          rw [h3, h4] at hl
          have he : l1.endTime = l2.endTime := by simpa using hl
          dsimp only
          rw [hs, he]

/-- The coarse density proxy only reads the erased view of the slots. -/
theorem calculateLoadDensity_congr (slots1 slots2 : List InterviewSlot)
    (ai : List Interviewer)
    (h : slots1.map eraseSlotId = slots2.map eraseSlotId) :
    calculateLoadDensity slots1 ai = calculateLoadDensity slots2 ai := by
  unfold calculateLoadDensity
  dsimp only
  congr 1
  exact foldl_congr_of_map (fun s => s.interviewers)
    (fun c ivl => ivl.foldl (fun c a => bumpCount c a.interviewerId) c)
    slots1 slots2
    (map_congr_of_erase (fun s => s.interviewers) (fun _ => rfl) slots1
      slots2 h)
    []

/-- Combinations built from erase-equal slot lists at different clocks
agree after erasure. -/
theorem mkSessionCombination_erase (ai : List Interviewer) (date : Int)
    (t1 t2 : Int) (slots1 slots2 : List InterviewSlot)
    (h : slots1.map eraseSlotId = slots2.map eraseSlotId) :
    eraseCombIds (mkSessionCombination ai date t1 slots1) =
      eraseCombIds (mkSessionCombination ai date t2 slots2) := by
  have hh := headOption_congr_of_erase (fun s => s.startTime) (fun _ => rfl)
    slots1 slots2 h
  have hl := lastOption_congr_of_erase (fun s => s.endTime) (fun _ => rfl)
    slots1 slots2 h
  unfold mkSessionCombination eraseCombIds
  simp only [SessionCombination.mk.injEq, true_and]
  refine ⟨h, ?_, ?_, calculateTotalDuration_congr slots1 slots2 h,
    calculateLoadDensity_congr slots1 slots2 ai h⟩
  · rw [hh]
  · rw [hl]

end Scheduling

namespace Scheduling

/-- The final-sort comparator only reads erase-invariant fields. -/
theorem sessionCombinationCmp_erase (a b : SessionCombination) :
    sessionCombinationCmp (eraseCombIds a) (eraseCombIds b) =
      sessionCombinationCmp a b := rfl

/-- `sortInsert` commutes with a projection the comparator factors
through. -/
theorem map_sortInsert {α : Type} (e : α → α) (cmp : α → α → Rat)
    (hc : ∀ x y, cmp (e x) (e y) = cmp x y) (x1 x2 : α) (hx : e x1 = e x2)
    (l1 : List α) :
    ∀ l2 : List α, l1.map e = l2.map e →
      (sortInsert cmp x1 l1).map e = (sortInsert cmp x2 l2).map e := by
  induction l1 with
  | nil =>
    intro l2 h
    cases l2 with
    | nil => simp [sortInsert, hx]
    | cons y ys => simp at h
  | cons y1 ys1 ih =>
    intro l2 h
    cases l2 with
    | nil => simp at h
    | cons y2 ys2 =>
      simp only [List.map_cons, List.cons.injEq] at h
      obtain ⟨hy, hys⟩ := h
      have hcmp : cmp y1 x1 = cmp y2 x2 := by
        rw [← hc y1 x1, ← hc y2 x2, hy, hx]
      unfold sortInsert
      by_cases hle : cmp y1 x1 ≤ 0
      · rw [if_pos hle, if_pos (hcmp ▸ hle)]
        simp only [List.map_cons]
        rw [hy, ih ys2 hys]
      · rw [if_neg hle, if_neg (hcmp ▸ hle)]
        simp only [List.map_cons]
        rw [hx, hy, hys]

/-- `stableSortBy` commutes with a projection the comparator factors
through. -/
theorem map_stableSortBy {α : Type} (e : α → α) (cmp : α → α → Rat)
    (hc : ∀ x y, cmp (e x) (e y) = cmp x y) (l1 l2 : List α)
    (h : l1.map e = l2.map e) :
    (stableSortBy cmp l1).map e = (stableSortBy cmp l2).map e := by
  have key : ∀ (l1 l2 : List α), l1.map e = l2.map e →
      ∀ (a1 a2 : List α), a1.map e = a2.map e →
      (l1.foldl (fun acc x => sortInsert cmp x acc) a1).map e =
        (l2.foldl (fun acc x => sortInsert cmp x acc) a2).map e := by
    intro l1
    induction l1 with
    | nil =>
      intro l2 h a1 a2 ha
      cases l2 with
      | nil => simpa using ha
      | cons y ys => simp at h
    | cons x xs ih =>
      intro l2 h a1 a2 ha
      cases l2 with
      | nil => simp at h
      | cons y ys =>
        simp only [List.map_cons, List.cons.injEq] at h
        simp only [List.foldl_cons]
        exact ih ys h.2 _ _ (map_sortInsert e cmp hc x y h.1 a1 a2 ha)
  exact key l1 l2 h [] [] rfl

/-- The interviewer-combination loop respects a step-wise simulation up
to id erasure. -/
theorem comboLoopE_rel (options : SchedulingOptions)
    (step1 step2 : List Interviewer → List SessionCombination →
      Option (List SessionCombination))
    (hstep : ∀ combo res1 res2,
      res1.map eraseCombIds = res2.map eraseCombIds →
      (step1 combo res1).map (List.map eraseCombIds) =
        (step2 combo res2).map (List.map eraseCombIds))
    (combos : List (List Interviewer)) :
    ∀ res1 res2, res1.map eraseCombIds = res2.map eraseCombIds →
      (comboLoopE options step1 combos res1).map eraseCombIds =
        (comboLoopE options step2 combos res2).map eraseCombIds := by
  induction combos with
  | nil => intro res1 res2 h; simpa [comboLoopE] using h
  | cons c cs ih =>
    intro res1 res2 h
    have hs := hstep c res1 res2 h
    unfold comboLoopE
    cases h1 : step1 c res1 with
    | none =>
      cases h2 : step2 c res2 with
      | none => exact ih res1 res2 h
      | some r2 => rw [h1, h2] at hs; exact absurd hs (by simp)
    | some r1 =>
      cases h2 : step2 c res2 with
      | none => rw [h1, h2] at hs; exact absurd hs (by simp)
      | some r2 =>
        rw [h1, h2] at hs
        have hr : r1.map eraseCombIds = r2.map eraseCombIds := by
          simpa using hs
        have hlen : r1.length = r2.length := by
          have := congrArg List.length hr
          simpa using this
        dsimp only
        rw [hlen]
        cases hm : maxReached options r2.length with
        | false =>
          rw [if_neg (by simp), if_neg (by simp)]
          exact ih r1 r2 hr
        | true =>
          rw [if_pos rfl, if_pos rfl]
          exact hr

/-- The backtracking search is insensitive to the clock reading up to
the id fields of its outputs. -/
theorem exploreSlotCombinations_erase (fuel : Nat)
    (sc : List (String × List (List Interviewer)))
    (ai : List Interviewer) (date : Int)
    (ce : List (String × List CalendarEvent)) (o : SchedulingOptions)
    (t1 t2 : Int) :
    ∀ (sessions : List InterviewSession)
      (cur1 cur2 : List InterviewSlot) (res1 res2 : List SessionCombination),
      cur1.map eraseSlotId = cur2.map eraseSlotId →
      res1.map eraseCombIds = res2.map eraseCombIds →
      (exploreSlotCombinations fuel sc ai date ce o t1 sessions cur1
          res1).map eraseCombIds =
        (exploreSlotCombinations fuel sc ai date ce o t2 sessions cur2
          res2).map eraseCombIds := by
  induction fuel with
  | zero => intro sessions cur1 cur2 res1 res2 hc hr; exact hr
  | succ fuel ih =>
    intro sessions cur1 cur2 res1 res2 hc hr
    cases sessions with
    | nil =>
      show (res1 ++ [mkSessionCombination ai date t1 cur1]).map eraseCombIds =
        (res2 ++ [mkSessionCombination ai date t2 cur2]).map eraseCombIds
      simp only [List.map_append, List.map_cons, List.map_nil]
      rw [hr, mkSessionCombination_erase ai date t1 t2 cur1 cur2 hc]
    | cons session rest =>
      show (comboLoopE o _ _ res1).map eraseCombIds =
        (comboLoopE o _ _ res2).map eraseCombIds
      have hst : calculateSessionStartTime cur1 session date =
          calculateSessionStartTime cur2 session date :=
        calculateSessionStartTime_congr cur1 cur2 session date hc
      refine comboLoopE_rel o _ _ ?_ _ res1 res2 hr
      intro combo r1 r2 hrr
      have hcs := createAndCheckSlot_erase session combo
        (calculateSessionStartTime cur1 session date) ce o t1 t2
      rw [hst] at hcs
      rw [← hst]
      cases h1 : createAndCheckSlot session combo
          (calculateSessionStartTime cur1 session date) ce o t1 with
      | none =>
        rw [hst] at h1 ⊢
        cases h2 : createAndCheckSlot session combo
            (calculateSessionStartTime cur2 session date) ce o t2 with
        | none => rfl
        | some s2 => rw [h1, h2] at hcs; exact absurd hcs (by simp)
      | some s1 =>
        rw [hst] at h1 ⊢
        cases h2 : createAndCheckSlot session combo
            (calculateSessionStartTime cur2 session date) ce o t2 with
        | none => rw [h1, h2] at hcs; exact absurd hcs (by simp)
        | some s2 =>
          rw [h1, h2] at hcs
          have hs12 : eraseSlotId s1 = eraseSlotId s2 := by simpa using hcs
          have hrec := ih rest (cur1 ++ [s1]) (cur2 ++ [s2]) r1 r2
            (by
              simp only [List.map_append, List.map_cons, List.map_nil]
              rw [hc, hs12]) hrr
          simpa using hrec

/-- The single-day search is insensitive to the clock reading up to the
id fields of its outputs. -/
theorem findSlotsForDay_erase (sessions : List InterviewSession)
    (interviewers : List Interviewer) (date : Int)
    (ce : List (String × List CalendarEvent)) (o : SchedulingOptions)
    (t1 t2 : Int) :
    (findSlotsForDay sessions interviewers date ce o t1).map eraseCombIds =
      (findSlotsForDay sessions interviewers date ce o t2).map
        eraseCombIds := by
  unfold findSlotsForDay
  exact map_stableSortBy eraseCombIds sessionCombinationCmp
    (fun a b => sessionCombinationCmp_erase a b) _ _
    (exploreSlotCombinations_erase _ _ _ _ _ _ t1 t2 _ [] [] [] [] rfl rfl)

end Scheduling

namespace Scheduling

/-- Parallel lists identified by a projection fold identically when the
step only reads elements through that projection. -/
theorem foldl_congr_rel {α β γ : Type} (g : α → β) (F : γ → α → γ)
    (hF : ∀ acc x y, g x = g y → F acc x = F acc y) :
    ∀ (l1 l2 : List α), l1.map g = l2.map g →
      ∀ a : γ, l1.foldl F a = l2.foldl F a := by
  intro l1
  induction l1 with
  | nil =>
    intro l2 h a
    cases l2 with
    | nil => rfl
    | cons y ys => simp at h
  | cons x xs ih =>
    intro l2 h a
    cases l2 with
    | nil => simp at h
    | cons y ys =>
      simp only [List.map_cons, List.cons.injEq] at h
      simp only [List.foldl_cons]
      rw [hF a x y h.1]
      exact ih ys h.2 _

/-- Parallel lists identified by a projection flat-map identically when
the function only reads elements through that projection. -/
theorem flatMap_congr_rel {α β γ : Type} (g : α → β) (f : α → List γ)
    (hf : ∀ x y, g x = g y → f x = f y) :
    ∀ (l1 l2 : List α), l1.map g = l2.map g →
      l1.flatMap f = l2.flatMap f := by
  intro l1
  induction l1 with
  | nil =>
    intro l2 h
    cases l2 with
    | nil => rfl
    | cons y ys => simp at h
  | cons x xs ih =>
    intro l2 h
    cases l2 with
    | nil => simp at h
    | cons y ys =>
      simp only [List.map_cons, List.cons.injEq] at h
      simp only [List.flatMap_cons]
      rw [hf x y h.1, ih ys h.2]

/-- Parallel lists identified by a projection agree on `any` when the
predicate only reads elements through that projection. -/
theorem any_congr_rel {α β : Type} (g : α → β) (p : α → Bool)
    (hp : ∀ x y, g x = g y → p x = p y) :
    ∀ (l1 l2 : List α), l1.map g = l2.map g → l1.any p = l2.any p := by
  intro l1
  induction l1 with
  | nil =>
    intro l2 h
    cases l2 with
    | nil => rfl
    | cons y ys => simp at h
  | cons x xs ih =>
    intro l2 h
    cases l2 with
    | nil => simp at h
    | cons y ys =>
      simp only [List.map_cons, List.cons.injEq] at h
      simp only [List.any_cons]
      rw [hp x y h.1, ih ys h.2]

/-- The cross-round interviewer-reuse test only reads the erased views
of the combination and the earlier rounds. -/
theorem hasInterviewerConflict_congr (c1 c2 : SessionCombination)
    (hc : eraseCombIds c1 = eraseCombIds c2)
    (p1 p2 : List RoundPlan)
    (hp : p1.map eraseRoundIds = p2.map eraseRoundIds) :
    hasInterviewerConflictWithPreviousRounds c1 p1 =
      hasInterviewerConflictWithPreviousRounds c2 p2 := by
  have hslots : c1.slots.map eraseSlotId = c2.slots.map eraseSlotId :=
    congrArg (fun c => c.slots) hc
  have hivid : ∀ x y : InterviewSlot, eraseSlotId x = eraseSlotId y →
      x.interviewers.map (fun a => a.interviewerId) =
        y.interviewers.map (fun a => a.interviewerId) := by
    intro x y hxy
    have : x.interviewers = y.interviewers :=
      congrArg (fun s => s.interviewers) hxy
    rw [this]
  have hcur : c1.slots.flatMap
      (fun slot => slot.interviewers.map (fun a => a.interviewerId)) =
      c2.slots.flatMap
        (fun slot => slot.interviewers.map (fun a => a.interviewerId)) :=
    flatMap_congr_rel eraseSlotId _ hivid c1.slots c2.slots hslots
  unfold hasInterviewerConflictWithPreviousRounds
  dsimp only
  rw [hcur]
  refine any_congr_rel eraseRoundIds _ ?_ p1 p2 hp
  intro x y hxy
  have hxs : x.combination.slots.map eraseSlotId =
      y.combination.slots.map eraseSlotId :=
    congrArg (fun r => r.combination.slots) hxy
  rw [flatMap_congr_rel eraseSlotId _ hivid x.combination.slots
    y.combination.slots hxs]

/-- The interviewer-id roster of a plan prefix only reads the erased
view of its rounds. -/
theorem extractAllInterviewers_congr (r1 r2 : List RoundPlan)
    (h : r1.map eraseRoundIds = r2.map eraseRoundIds) :
    extractAllInterviewers r1 = extractAllInterviewers r2 := by
  unfold extractAllInterviewers
  refine foldl_congr_rel eraseRoundIds _ ?_ r1 r2 h extractAllInterviewers.acc0
  intro acc x y hxy
  have hxs : x.combination.slots.map eraseSlotId =
      y.combination.slots.map eraseSlotId :=
    congrArg (fun r => r.combination.slots) hxy
  refine foldl_congr_rel eraseSlotId _ ?_ x.combination.slots
    y.combination.slots hxs acc
  intro acc2 s t hst
  have : s.interviewers = t.interviewers :=
    congrArg (fun s => s.interviewers) hst
  rw [this]

end Scheduling

namespace Scheduling

/-- The per-date combination loop respects the round recursion up to id
erasure. -/
theorem planComboLoop_rel (options : SchedulingOptions)
    (rec1 rec2 : List RoundPlan → List MultiDayPlan → List MultiDayPlan)
    (hrec : ∀ p1 p2 r1 r2, p1.map eraseRoundIds = p2.map eraseRoundIds →
      r1.map erasePlanIds = r2.map erasePlanIds →
      (rec1 p1 r1).map erasePlanIds = (rec2 p2 r2).map erasePlanIds)
    (prev1 prev2 : List RoundPlan)
    (hprev : prev1.map eraseRoundIds = prev2.map eraseRoundIds)
    (d : Int) (sess : List InterviewSession) :
    ∀ (ds1 ds2 : List SessionCombination),
      ds1.map eraseCombIds = ds2.map eraseCombIds →
      ∀ (res1 res2 : List MultiDayPlan),
        res1.map erasePlanIds = res2.map erasePlanIds →
        (planComboLoop options rec1 prev1 d sess ds1 res1).map erasePlanIds =
          (planComboLoop options rec2 prev2 d sess ds2 res2).map
            erasePlanIds := by
  intro ds1
  induction ds1 with
  | nil =>
    intro ds2 h res1 res2 hr
    cases ds2 with
    | nil => simpa [planComboLoop] using hr
    | cons c cs => simp at h
  | cons c1 cs1 ih =>
    intro ds2 h res1 res2 hr
    cases ds2 with
    | nil => simp at h
    | cons c2 cs2 =>
      simp only [List.map_cons, List.cons.injEq] at h
      obtain ⟨hc, hcs⟩ := h
      have hlenp : prev1.length = prev2.length := by
        have := congrArg List.length hprev
        simpa using this
      unfold planComboLoop
      rw [hasInterviewerConflict_congr c1 c2 hc prev1 prev2 hprev]
      cases hconf : hasInterviewerConflictWithPreviousRounds c2 prev2 with
      | true =>
        rw [if_pos rfl, if_pos rfl]
        exact ih cs2 hcs res1 res2 hr
      | false =>
        have hfneg : ¬(false = true) := by simp
        conv_lhs => rw [if_neg hfneg]
        conv_rhs => rw [if_neg hfneg]
        dsimp only
        have hround : eraseRoundIds ⟨prev1.length, d, c1, sess⟩ =
            eraseRoundIds ⟨prev2.length, d, c2, sess⟩ := by
          simp only [eraseRoundIds]
          rw [hlenp, hc]
        have happ : (prev1 ++ [(⟨prev1.length, d, c1, sess⟩ : RoundPlan)]).map
            eraseRoundIds =
            (prev2 ++ [(⟨prev2.length, d, c2, sess⟩ : RoundPlan)]).map
              eraseRoundIds := by
          simp only [List.map_append, List.map_cons, List.map_nil]
          rw [hprev, hround]
        have hr1 := hrec _ _ res1 res2 happ hr
        have hlen1 :
            (rec1 (prev1 ++ [⟨prev1.length, d, c1, sess⟩]) res1).length =
            (rec2 (prev2 ++ [⟨prev2.length, d, c2, sess⟩]) res2).length := by
          have := congrArg List.length hr1
          simpa using this
        rw [hlen1]
        cases hm : maxReached options
            (rec2 (prev2 ++ [⟨prev2.length, d, c2, sess⟩]) res2).length with
        | true =>
          rw [if_pos rfl, if_pos rfl]
          exact hr1
        | false =>
          rw [if_neg (by simp), if_neg (by simp)]
          exact ih cs2 hcs _ _ hr1

/-- The daily loop of the round scheduler is insensitive to the clock
reading up to id erasure. -/
theorem dateLoop_rel (ivs : List Interviewer)
    (ce : List (String × List CalendarEvent)) (options : SchedulingOptions)
    (t1 t2 : Int)
    (rec1 rec2 : List RoundPlan → List MultiDayPlan → List MultiDayPlan)
    (hrec : ∀ p1 p2 r1 r2, p1.map eraseRoundIds = p2.map eraseRoundIds →
      r1.map erasePlanIds = r2.map erasePlanIds →
      (rec1 p1 r1).map erasePlanIds = (rec2 p2 r2).map erasePlanIds)
    (sess : List InterviewSession) (prev1 prev2 : List RoundPlan)
    (hprev : prev1.map eraseRoundIds = prev2.map eraseRoundIds) :
    ∀ (ds : List Int) (res1 res2 : List MultiDayPlan),
      res1.map erasePlanIds = res2.map erasePlanIds →
      (dateLoop ivs ce options t1 rec1 sess prev1 ds res1).map erasePlanIds =
        (dateLoop ivs ce options t2 rec2 sess prev2 ds res2).map
          erasePlanIds := by
  intro ds
  induction ds with
  | nil => intro res1 res2 hr; simpa [dateLoop] using hr
  | cons d ds ih =>
    intro res1 res2 hr
    unfold dateLoop
    dsimp only
    have hday := findSlotsForDay_erase sess ivs d ce options t1 t2
    have h1 := planComboLoop_rel options rec1 rec2 hrec prev1 prev2 hprev d
      sess (findSlotsForDay sess ivs d ce options t1)
      (findSlotsForDay sess ivs d ce options t2) hday res1 res2 hr
    have hlen1 : (planComboLoop options rec1 prev1 d sess
        (findSlotsForDay sess ivs d ce options t1) res1).length =
        (planComboLoop options rec2 prev2 d sess
          (findSlotsForDay sess ivs d ce options t2) res2).length := by
      have := congrArg List.length h1
      simpa using this
    rw [hlen1]
    cases hm : maxReached options (planComboLoop options rec2 prev2 d sess
        (findSlotsForDay sess ivs d ce options t2) res2).length with
    | true =>
      rw [if_pos rfl, if_pos rfl]
      exact h1
    | false =>
      rw [if_neg (by simp), if_neg (by simp)]
      exact ih _ _ h1

/-- The round recursion is insensitive to the clock reading up to id
erasure. -/
theorem findRoundSlots_rel :
    ∀ (fuel : Nat) (ivs : List Interviewer)
      (ce : List (String × List CalendarEvent)) (options : SchedulingOptions)
      (t1 t2 sd ed : Int) (remaining : List (List InterviewSession))
      (prev1 prev2 : List RoundPlan),
      prev1.map eraseRoundIds = prev2.map eraseRoundIds →
      ∀ (res1 res2 : List MultiDayPlan),
        res1.map erasePlanIds = res2.map erasePlanIds →
        (findRoundSlots fuel ivs ce options t1 sd ed remaining prev1
            res1).map erasePlanIds =
          (findRoundSlots fuel ivs ce options t2 sd ed remaining prev2
            res2).map erasePlanIds := by
  intro fuel
  induction fuel with
  | zero => intro _ _ _ _ _ _ _ _ _ _ _ res1 res2 hr; exact hr
  | succ fuel ih =>
    intro ivs ce options t1 t2 sd ed remaining prev1 prev2 hprev res1 res2 hr
    have hlenp : prev1.length = prev2.length := by
      have := congrArg List.length hprev
      simpa using this
    cases remaining with
    | nil =>
      unfold findRoundSlots
      simp only [List.map_append, List.map_cons, List.map_nil]
      rw [hr]
      have hext := extractAllInterviewers_congr prev1 prev2 hprev
      simp only [erasePlanIds]
      rw [hprev, hlenp, hext]
    | cons cur rest =>
      have hlast : prev1.getLast?.map eraseRoundIds =
          prev2.getLast?.map eraseRoundIds := by
        rw [← List.getLast?_map, ← List.getLast?_map, hprev]
      unfold findRoundSlots
      dsimp only
      cases h1 : prev1.getLast? with
      | none =>
        cases h2 : prev2.getLast? with
        | none =>
          exact dateLoop_rel ivs ce options t1 t2 _ _
            (fun p1 p2 r1 r2 hp hrr =>
              ih ivs ce options t1 t2 sd ed rest p1 p2 hp r1 r2 hrr)
            cur prev1 prev2 hprev _ res1 res2 hr
        | some r2 => rw [h1, h2] at hlast; exact absurd hlast (by simp)
      | some r1 =>
        cases h2 : prev2.getLast? with
        | none => rw [h1, h2] at hlast; exact absurd hlast (by simp)
        | some r2 =>
          rw [h1, h2] at hlast
          have hr12 : eraseRoundIds r1 = eraseRoundIds r2 := by
            simpa using hlast
          have hdate : r1.date = r2.date :=
            congrArg (fun r => r.date) hr12
          dsimp only
          rw [hdate]
          exact dateLoop_rel ivs ce options t1 t2 _ _
            (fun p1 p2 r1 r2 hp hrr =>
              ih ivs ce options t1 t2 sd ed rest p1 p2 hp r1 r2 hrr)
            cur prev1 prev2 hprev _ res1 res2 hr

end Scheduling

namespace Scheduling

/-- C8 (amended): re-running a search with identical inputs at a
different clock reading yields the same ordered result list up to the
`Date.now()`-derived id fields — every other field of every result (and
of every nested slot and round) is identical, for both the single-day
and the multi-day search. -/
theorem search_deterministic_up_to_ids (sessions : List InterviewSession)
    (interviewers : List Interviewer) (date startDate endDate : Int)
    (calendarEvents : List (String × List CalendarEvent))
    (options : SchedulingOptions) (t1 t2 : Int) :
    (findSlotsForDay sessions interviewers date calendarEvents options
        t1).map eraseCombIds =
      (findSlotsForDay sessions interviewers date calendarEvents options
        t2).map eraseCombIds ∧
    (findMultiDaySlots sessions interviewers startDate endDate calendarEvents
        options t1).map erasePlanIds =
      (findMultiDaySlots sessions interviewers startDate endDate
        calendarEvents options t2).map erasePlanIds := by
  constructor
  · exact findSlotsForDay_erase sessions interviewers date calendarEvents
      options t1 t2
  · unfold findMultiDaySlots
    exact findRoundSlots_rel _ interviewers calendarEvents options t1 t2
      startDate endDate _ [] [] rfl [] [] rfl

end Scheduling
